import Mathlib

/-!
# Verification of the rupost HTTP test runner

Shallow embedding of the rupost pipeline: document parsing
(`src/parser/http_file.rs`), variable resolution (`src/variable/resolver.rs`),
capture extraction (`src/variable/capture.rs`), assertion parsing and
evaluation (`src/assertion/*.rs`) and the sequential executor
(`src/runner/executor.rs`), together with proofs about the specified
properties.

Rust `String` values are modelled by Lean `String`; all character-level
scanning is done over `List Char`.  `f64` numbers are modelled by `ℚ` with
the machine epsilon `2⁻⁵²` made explicit.  External collaborators
(serde_json, the OS environment, the regex engine, the HTTP transport) are
modelled by explicit Lean functions or by function parameters.
-/

namespace Rupost

/-! ## Character-list utilities (models of Rust `str` primitives) -/

/-- Model of Rust's whitespace test restricted to the ASCII whitespace that
the repository's inputs use. -/
def isWs (c : Char) : Bool :=
  c = ' ' || c = '\t' || c = '\n' || c = '\r'

/-- `str::trim` on a character list. -/
def trimChars (l : List Char) : List Char :=
  ((l.dropWhile isWs).reverse.dropWhile isWs).reverse

/-- `str::trim` on strings. -/
def strTrim (s : String) : String := ⟨trimChars s.data⟩

/-- Does `pat` occur as a prefix of `l`? (`str::starts_with`). -/
def hasPre : List Char → List Char → Bool
  | [], _ => true
  | _ :: _, [] => false
  | p :: ps, c :: cs => p = c && hasPre ps cs

/-- Strip a prefix, returning the remainder (`str::strip_prefix`). -/
def dropPre : List Char → List Char → Option (List Char)
  | [], l => some l
  | _ :: _, [] => none
  | p :: ps, c :: cs => if p = c then dropPre ps cs else none

/-- Strip a suffix, returning the front (`str::strip_suffix`). -/
def dropSuf (pat l : List Char) : Option (List Char) :=
  match dropPre pat.reverse l.reverse with
  | some r => some r.reverse
  | none => none

/-- First index at which `pat` occurs as a substring (`str::find`). -/
def findSub (pat : List Char) : List Char → Option Nat
  | [] => if pat.isEmpty then some 0 else none
  | c :: cs =>
    if hasPre pat (c :: cs) then some 0
    else (findSub pat cs).map (· + 1)

/-- Specification-level predicate: `pat` occurs in `l` starting at index `i`. -/
def occursAt (pat l : List Char) (i : Nat) : Prop :=
  pat <+: l.drop i

instance (pat l : List Char) (i : Nat) : Decidable (occursAt pat l i) :=
  inferInstanceAs (Decidable (pat <+: l.drop i))

/-- Split on `'\n'`, keeping empty segments. -/
def splitNl : List Char → List (List Char)
  | [] => [[]]
  | '\n' :: cs => [] :: splitNl cs
  | c :: cs =>
    match splitNl cs with
    | [] => [[c]]
    | l :: ls => (c :: l) :: ls

/-- Drop one trailing `'\r'` (Rust's `lines` treats `\r\n` as a terminator). -/
def stripCr (l : List Char) : List Char :=
  match dropSuf ['\r'] l with
  | some r => r
  | none => l

/-- Model of Rust `str::lines`: split on `'\n'`, drop a final empty segment,
strip a trailing `'\r'` from each line. -/
def rustLines (s : String) : List String :=
  if s.data = [] then []
  else
    let parts := splitNl s.data
    let parts := if parts.getLast? = some [] then parts.dropLast else parts
    parts.map (fun l => ⟨stripCr l⟩)

/-- Accumulating pass of `splitWs`; `acc` is the current run, reversed. -/
def splitWsAux : List Char → List Char → List (List Char)
  | [], acc => if acc.isEmpty then [] else [acc.reverse]
  | c :: cs, acc =>
    if isWs c then
      if acc.isEmpty then splitWsAux cs [] else acc.reverse :: splitWsAux cs []
    else splitWsAux cs (c :: acc)

/-- Model of `str::split_whitespace`: maximal runs of non-whitespace. -/
def splitWs (l : List Char) : List (List Char) :=
  splitWsAux l []

/-- Model of `str::split('.')` (always at least one segment). -/
def splitDot : List Char → List (List Char)
  | [] => [[]]
  | '.' :: cs => [] :: splitDot cs
  | c :: cs =>
    match splitDot cs with
    | [] => [[c]]
    | l :: ls => (c :: l) :: ls

/-- `char::is_ascii_digit`. -/
def isDigitCh (c : Char) : Bool := '0' ≤ c && c ≤ '9'

/-- Numeric value of a digit run. -/
def digitsToNat (l : List Char) : Nat :=
  l.foldl (fun a c => 10 * a + (c.toNat - 48)) 0

/-- Model of `str::parse::<u64>` restricted to the formats the repository
feeds it: an optional `+` sign followed by one or more digits. -/
def parseU64 (l : List Char) : Option Nat :=
  let l := match l with
    | '+' :: rest => rest
    | _ => l
  if l ≠ [] && l.all isDigitCh then some (digitsToNat l) else none

/-- Uppercase one ASCII character (`str::to_uppercase` model). -/
def upCh (c : Char) : Char :=
  if 'a' ≤ c && c ≤ 'z' then Char.ofNat (c.toNat - 32) else c

/-- Lowercase one ASCII character (`str::to_lowercase` model). -/
def lowCh (c : Char) : Char :=
  if 'A' ≤ c && c ≤ 'Z' then Char.ofNat (c.toNat + 32) else c

def upStr (s : String) : String := ⟨s.data.map upCh⟩

def lowStr (s : String) : String := ⟨s.data.map lowCh⟩

/-! ## JSON values (model of the external `serde_json` collaborator)

`serde_json::Value` with numbers embedded in `ℚ` (the comparisons the
repository performs on them go through `f64`, modelled exactly for the
values that arise without rounding). -/

inductive Json where
  | null
  | boolean (flag : Bool)
  | number (value : ℚ)
  | string (text : String)
  | array (items : List Json)
  | object (members : List (String × Json))

/-- `serde_json::Value::get` with a string key: object lookup only. -/
def Json.getKey : Json → String → Option Json
  | .object members, k => (members.find? (fun p => p.1 = k)).map (·.2)
  | _, _ => none

/-- Skip JSON whitespace. -/
def skipWs (l : List Char) : List Char :=
  l.dropWhile isWs

/-- One escape character inside a JSON string literal (`\uXXXX` is outside
this model; the repository's own inputs never use it). -/
def escCh (c : Char) : Option Char :=
  if c = 'n' then some '\n'
  else if c = 't' then some '\t'
  else if c = 'r' then some '\r'
  else if c = '"' then some '"'
  else if c = '\\' then some '\\'
  else if c = '/' then some '/'
  else if c = 'b' then some (Char.ofNat 8)
  else if c = 'f' then some (Char.ofNat 12)
  else none

/-- Parse the remainder of a JSON string literal (after the opening quote). -/
def parseStrLit : List Char → Option (List Char × List Char)
  | [] => none
  | '"' :: rest => some ([], rest)
  | '\\' :: rest =>
    match rest with
    | [] => none
    | e :: rest2 =>
      match escCh e with
      | some c => (parseStrLit rest2).map (fun p => (c :: p.1, p.2))
      | none => none
  | c :: rest => (parseStrLit rest).map (fun p => (c :: p.1, p.2))

/-- Parse a JSON number: sign, integer part, optional fraction, optional
exponent; result as an exact rational. -/
def parseNum (l : List Char) : Option (ℚ × List Char) :=
  let (sign, l1) : ℚ × List Char :=
    match l with
    | '-' :: rest => (-1, rest)
    | _ => (1, l)
  let intPart := l1.takeWhile isDigitCh
  let l2 := l1.dropWhile isDigitCh
  if intPart = [] then none
  else
    let intVal : ℚ := (digitsToNat intPart : ℚ)
    let (fracVal, l3) : ℚ × List Char :=
      match l2 with
      | '.' :: rest =>
        let fracDigits := rest.takeWhile isDigitCh
        ((digitsToNat fracDigits : ℚ) / (10 : ℚ) ^ fracDigits.length,
          rest.dropWhile isDigitCh)
      | _ => (0, l2)
    let base := sign * (intVal + fracVal)
    match l3 with
    | 'e' :: rest => parseExp base rest
    | 'E' :: rest => parseExp base rest
    | _ => some (base, l3)
where
  /-- Parse the exponent part and apply it. -/
  parseExp (base : ℚ) (l : List Char) : Option (ℚ × List Char) :=
    let (esign, l1) : Bool × List Char :=
      match l with
      | '-' :: rest => (true, rest)
      | '+' :: rest => (false, rest)
      | _ => (false, l)
    let eDigits := l1.takeWhile isDigitCh
    if eDigits = [] then none
    else
      let e := digitsToNat eDigits
      let factor : ℚ := if esign then 1 / (10 : ℚ) ^ e else (10 : ℚ) ^ e
      some (base * factor, l1.dropWhile isDigitCh)

mutual

/-- Parse one JSON value (fuelled recursive descent; fuel is a bound on
nesting depth and is always supplied large enough for the input). -/
def parseVal : Nat → List Char → Option (Json × List Char)
  | 0, _ => none
  | fuel + 1, cs =>
    match skipWs cs with
    | [] => none
    | c :: rest =>
      if c = 'n' then
        (dropPre ['u', 'l', 'l'] rest).map (fun r => (Json.null, r))
      else if c = 't' then
        (dropPre ['r', 'u', 'e'] rest).map (fun r => (Json.boolean true, r))
      else if c = 'f' then
        (dropPre ['a', 'l', 's', 'e'] rest).map (fun r => (Json.boolean false, r))
      else if c = '"' then
        (parseStrLit rest).map (fun p => (Json.string ⟨p.1⟩, p.2))
      else if c = '[' then
        match parseElems fuel rest with
        | some (vs, r) => some (Json.array vs, r)
        | none => none
      else if c = '{' then
        match parseFields fuel rest with
        | some (fs, r) => some (Json.object fs, r)
        | none => none
      else
        (parseNum (c :: rest)).map (fun p => (Json.number p.1, p.2))

/-- Parse the elements of a JSON array (after `[`). -/
def parseElems : Nat → List Char → Option (List Json × List Char)
  | 0, _ => none
  | fuel + 1, cs =>
    match skipWs cs with
    | ']' :: rest => some ([], rest)
    | cs1 =>
      match parseVal fuel cs1 with
      | none => none
      | some (v, rest) =>
        match skipWs rest with
        | ',' :: rest2 =>
          match parseElems fuel rest2 with
          | some (vs, r) => some (v :: vs, r)
          | none => none
        | ']' :: rest2 => some ([v], rest2)
        | _ => none

/-- Parse the members of a JSON object (after `{`). -/
def parseFields : Nat → List Char → Option (List (String × Json) × List Char)
  | 0, _ => none
  | fuel + 1, cs =>
    match skipWs cs with
    | '}' :: rest => some ([], rest)
    | '"' :: rest =>
      match parseStrLit rest with
      | none => none
      | some (key, rest1) =>
        match skipWs rest1 with
        | ':' :: rest2 =>
          match parseVal fuel rest2 with
          | none => none
          | some (v, rest3) =>
            match skipWs rest3 with
            | ',' :: rest4 =>
              match parseFields fuel rest4 with
              | some (fs, r) => some ((⟨key⟩, v) :: fs, r)
              | none => none
            | '}' :: rest4 => some ([(⟨key⟩, v)], rest4)
            | _ => none
        | _ => none
    | _ => none

end

/-- Model of `serde_json::from_str::<Value>`: parse one value and require
only trailing whitespace after it. -/
def parseJson (s : String) : Option Json :=
  match parseVal (s.data.length + 1) s.data with
  | some (v, rest) => if skipWs rest = [] then some v else none
  | none => none

end Rupost

namespace Rupost

/-! ## Assertion data model (`src/assertion/types.rs`) -/

/-- `AssertError` from `src/assertion/types.rs` (payloads are the formatted
message strings; apostrophes of the originals are omitted). -/
inductive AssertError where
  | InvalidSyntax (msg : String)
  | InvalidOperator (msg : String)
  | InvalidValue (msg : String)
  | PathNotFound (msg : String)
  | TypeMismatch (expected actual : String)
  | JsonError (msg : String)
  | ExtractionError (msg : String)
deriving DecidableEq

/-- The `thiserror` `Display` rendering of an `AssertError`. -/
def AssertError.render : AssertError → String
  | .InvalidSyntax m => "Invalid assertion syntax: " ++ m
  | .InvalidOperator m => "Invalid operator: " ++ m
  | .InvalidValue m => "Invalid value: " ++ m
  | .PathNotFound m => "Path not found: " ++ m
  | .TypeMismatch e a => "Type mismatch: expected " ++ e ++ ", got " ++ a
  | .JsonError m => "JSON parse error: " ++ m
  | .ExtractionError m => "Value extraction failed: " ++ m

/-- `ValuePath` from `src/assertion/types.rs`. -/
inductive ValuePath where
  | Status
  | Header (name : String)
  | Body (segments : List String)
  | ResponseTime
deriving DecidableEq

/-- `Display for ValuePath`. -/
def ValuePath.render : ValuePath → String
  | .Status => "status"
  | .Header name => "headers." ++ name
  | .Body segments => "body." ++ String.intercalate "." segments
  | .ResponseTime => "response.time"

/-- `CompareOp` from `src/assertion/types.rs`. -/
inductive CompareOp where
  | Equal
  | NotEqual
  | Greater
  | Less
  | GreaterOrEqual
  | LessOrEqual
  | Contains
deriving DecidableEq

/-- `CompareOp::parse`. -/
def CompareOp.parse (s : String) : Option CompareOp :=
  if s = "==" then some .Equal
  else if s = "!=" then some .NotEqual
  else if s = ">" then some .Greater
  else if s = "<" then some .Less
  else if s = ">=" then some .GreaterOrEqual
  else if s = "<=" then some .LessOrEqual
  else if s = "contains" then some .Contains
  else none

/-- `CompareOp::as_str`. -/
def CompareOp.asStr : CompareOp → String
  | .Equal => "=="
  | .NotEqual => "!="
  | .Greater => ">"
  | .Less => "<"
  | .GreaterOrEqual => ">="
  | .LessOrEqual => "<="
  | .Contains => "contains"

/-- `f64::EPSILON` = 2⁻⁵². -/
def eps : ℚ := 1 / 2 ^ 52

/-- Model of an `f64` value: finite values exactly as rationals, plus the
two infinities and NaN (finite arithmetic never overflows to infinity in
this model; no claim depends on that case). -/
inductive F64 where
  | fin (q : ℚ)
  | inf (neg : Bool)
  | nan
deriving DecidableEq

/-- IEEE-754 subtraction on the model (exact on finite values). -/
def F64.sub : F64 → F64 → F64
  | .nan, _ => .nan
  | _, .nan => .nan
  | .fin a, .fin b => .fin (a - b)
  | .fin _, .inf n => .inf (!n)
  | .inf n, .fin _ => .inf n
  | .inf n, .inf m => if n = m then .nan else .inf n

/-- IEEE-754 absolute value on the model. -/
def F64.abs : F64 → F64
  | .fin q => .fin |q|
  | .inf _ => .inf false
  | .nan => .nan

/-- IEEE-754 `<`: false whenever NaN is involved. -/
def F64.lt : F64 → F64 → Bool
  | .nan, _ => false
  | _, .nan => false
  | .fin a, .fin b => a < b
  | .fin _, .inf n => !n
  | .inf n, .fin _ => n
  | .inf n, .inf m => n && !m

/-- IEEE-754 `<=`: false whenever NaN is involved. -/
def F64.le : F64 → F64 → Bool
  | .nan, _ => false
  | _, .nan => false
  | .fin a, .fin b => a ≤ b
  | .fin _, .inf n => !n
  | .inf n, .fin _ => n
  | .inf n, .inf m => n = m || (n && !m)

/-- `f64::EPSILON` as a model value. -/
def epsF : F64 := .fin eps

/-- `AssertValue` from `src/assertion/types.rs`; `f64` payloads are carried
in the `F64` model. -/
inductive AssertValue where
  | Number (v : F64)
  | String (s : String)
  | Bool (b : Bool)
  | Null
deriving DecidableEq

/-- Rendering of a rational in place of Rust's finite `f64` `Display`;
exact for integers, which is the only case the repository's own scenarios
exercise. -/
def numRender (q : ℚ) : String :=
  if q.den = 1 then toString q.num else toString q.num ++ "/" ++ toString q.den

/-- Rust `f64` `Display` on the model. -/
def f64Render : F64 → String
  | .fin q => numRender q
  | .inf n => if n then "-inf" else "inf"
  | .nan => "NaN"

/-- `Display for AssertValue`. -/
def renderValue : AssertValue → String
  | .Number v => f64Render v
  | .String s => "\"" ++ s ++ "\""
  | .Bool b => if b then "true" else "false"
  | .Null => "null"

/-- Rust `Debug` rendering of `AssertValue` (used in one error branch). -/
def dbgValue : AssertValue → String
  | .Number v => "Number(" ++ f64Render v ++ ")"
  | .String s => "String(\"" ++ s ++ "\")"
  | .Bool b => "Bool(" ++ (if b then "true" else "false") ++ ")"
  | .Null => "Null"

/-- Rust `str::contains` (substring test). -/
def strContains (a b : String) : Bool :=
  (findSub b.data a.data).isSome

/-- `AssertValue::compare` from `src/assertion/types.rs`. -/
def compareValue : AssertValue → CompareOp → AssertValue →
    Except AssertError Bool
  | .Number a, op, .Number b =>
    match op with
    | .Equal => .ok (F64.lt (F64.abs (F64.sub a b)) epsF)
    | .NotEqual => .ok (F64.le epsF (F64.abs (F64.sub a b)))
    | .Greater => .ok (F64.lt b a)
    | .Less => .ok (F64.lt a b)
    | .GreaterOrEqual => .ok (F64.le b a)
    | .LessOrEqual => .ok (F64.le a b)
    | .Contains => .error (.TypeMismatch "string" "number")
  | .String a, op, .String b =>
    match op with
    | .Equal => .ok (a = b)
    | .NotEqual => .ok (a ≠ b)
    | .Contains => .ok (strContains a b)
    | _ => .error (.TypeMismatch "number" "string")
  | .Bool a, op, .Bool b =>
    match op with
    | .Equal => .ok (a = b)
    | .NotEqual => .ok (a ≠ b)
    | op => .error (.InvalidOperator
        ("Operator " ++ op.asStr ++ " not supported for boolean values"))
  | .Null, op, .Null =>
    match op with
    | .Equal => .ok true
    | .NotEqual => .ok false
    | op => .error (.InvalidOperator
        ("Operator " ++ op.asStr ++ " not supported for null"))
  | .Null, op, other =>
    match op with
    | .Equal => .ok false
    | .NotEqual => .ok true
    | op =>
      let _ := other
      .error (.InvalidOperator
        ("Operator " ++ op.asStr ++ " not supported for null comparison"))
  | this, op, .Null =>
    match op with
    | .Equal => .ok false
    | .NotEqual => .ok true
    | op =>
      let _ := this
      .error (.InvalidOperator
        ("Operator " ++ op.asStr ++ " not supported for null comparison"))
  | this, _, other => .error (.TypeMismatch (dbgValue other) (dbgValue this))

/-- `AssertExpr` from `src/assertion/types.rs`. -/
inductive AssertExpr where
  | Compare (left : ValuePath) (op : CompareOp) (right : AssertValue)
  | Exists (path : ValuePath)
deriving DecidableEq

/-- `AssertionResult` from `src/assertion/types.rs`. -/
structure AssertionResult where
  raw : String
  passed : Bool
  actual : Option String
  expected : String
  message : Option String
deriving DecidableEq

/-- `AssertionResult::success`. -/
def AssertionResult.success (raw actual expected : String) : AssertionResult :=
  ⟨raw, true, some actual, expected, none⟩

/-- `AssertionResult::failure`. -/
def AssertionResult.failure (raw actual expected message : String) :
    AssertionResult :=
  ⟨raw, false, some actual, expected, some message⟩

/-- `AssertionResult::error`. -/
def AssertionResult.error (raw : String) (e : AssertError) : AssertionResult :=
  ⟨raw, false, none, "", some e.render⟩

end Rupost

namespace Rupost

/-! ## Assertion parsing (`src/assertion/parser.rs`) -/

/-- Model of `str::parse::<f64>`: optional sign, then a case-insensitive
`nan`/`inf`/`infinity` spelling or digits with optional fraction and
exponent. -/
def parseF64 (l : List Char) : Option F64 :=
  let (neg, l1) : Bool × List Char :=
    match l with
    | '-' :: rest => (true, rest)
    | '+' :: rest => (false, rest)
    | _ => (false, l)
  let low := l1.map lowCh
  if low = "nan".data then some .nan
  else if low = "inf".data || low = "infinity".data then some (.inf neg)
  else
    let sign : ℚ := if neg then -1 else 1
    let intPart := l1.takeWhile isDigitCh
    let l2 := l1.dropWhile isDigitCh
    let (fracDigits, l3) : List Char × List Char :=
      match l2 with
      | '.' :: rest => (rest.takeWhile isDigitCh, rest.dropWhile isDigitCh)
      | _ => ([], l2)
    if intPart = [] && fracDigits = [] then none
    else
      let base : ℚ :=
        sign * ((digitsToNat intPart : ℚ) +
          (digitsToNat fracDigits : ℚ) / (10 : ℚ) ^ fracDigits.length)
      match l3 with
      | [] => some (.fin base)
      | e :: rest =>
        if e = 'e' || e = 'E' then
          let (esign, r1) : Bool × List Char :=
            match rest with
            | '-' :: r => (true, r)
            | '+' :: r => (false, r)
            | _ => (false, rest)
          let eDigits := r1.takeWhile isDigitCh
          if eDigits = [] || r1.dropWhile isDigitCh ≠ [] then none
          else
            let ex := digitsToNat eDigits
            some (.fin (if esign then base / (10 : ℚ) ^ ex
              else base * (10 : ℚ) ^ ex))
        else none

/-- `parse_value_path` from `src/assertion/parser.rs`. -/
def parse_value_path (input : List Char) : Except AssertError ValuePath :=
  let input := trimChars input
  if input = "status".data then .ok .Status
  else if input = "response.time".data then .ok .ResponseTime
  else
    match dropPre "headers.".data input with
    | some rest => .ok (.Header ⟨rest⟩)
    | none =>
      match dropPre "body.".data input with
      | some rest =>
        let segments := (splitDot rest).map (fun s => (⟨s⟩ : String))
        if segments = [] then
          .error (.InvalidSyntax "Body path cannot be empty")
        else .ok (.Body segments)
      | none =>
        .error (.InvalidSyntax ("Invalid value path: " ++ (⟨input⟩ : String) ++
          ". Must start with status, headers., body., or response.time"))

/-- `parse_assert_value` from `src/assertion/parser.rs`.  Every Rust
return path is `Ok`, so the result carries the `Ok` payload directly;
`none` models the panic of the slice `input[1..input.len() - 1]` when the
trimmed input is a single quote character (the range `1..0` is out of
bounds and aborts the process). -/
def parse_assert_value (input : List Char) : Option AssertValue :=
  let input := trimChars input
  if input = "null".data then some .Null
  else if input = "true".data then some (.Bool true)
  else if input = "false".data then some (.Bool false)
  else if (hasPre ['"'] input && hasPre ['"'] input.reverse) ||
      (hasPre ['\''] input && hasPre ['\''] input.reverse) then
    if input.length = 1 then none
    else some (.String ⟨(input.drop 1).dropLast⟩)
  else
    match parseF64 input with
    | some n => some (.Number n)
    | none => some (.String ⟨input⟩)

/-- The operator table of `parse_assertion`, in the source's priority
order. -/
def opsTable : List String :=
  [">=", "<=", "==", "!=", ">", "<", "contains"]

/-- The operator scan of `parse_assertion`: the first operator of
`opsTable` that occurs anywhere in the input, with the position of its
left-most occurrence. -/
def findOp (input : List Char) : Option (String × Nat) :=
  opsTable.findSome? (fun op => (findSub op.data input).map (fun pos => (op, pos)))

/-- `parse_assertion` from `src/assertion/parser.rs`.  `none` models the
propagated `parse_assert_value` panic; every ordinary outcome, success or
`Err`, is wrapped in `some`. -/
def parse_assertion (input : String) :
    Option (Except AssertError AssertExpr) :=
  let inp := trimChars input.data
  match dropSuf "exists".data inp with
  | some pathStr =>
    match parse_value_path (trimChars pathStr) with
    | .ok path => some (.ok (.Exists path))
    | .error e => some (.error e)
  | none =>
    match findOp inp with
    | none =>
      some (.error (.InvalidSyntax
        ("No valid operator found in assertion: " ++ (⟨inp⟩ : String))))
    | some (opStr, opPos) =>
      match CompareOp.parse opStr with
      | none =>
        some (.error (.InvalidOperator ("Invalid operator: " ++ opStr)))
      | some op =>
        let leftStr := trimChars (inp.take opPos)
        let rightStr := trimChars (inp.drop (opPos + opStr.data.length))
        if leftStr = [] then
          some (.error (.InvalidSyntax "Left side of assertion is empty"))
        else if rightStr = [] then
          some (.error (.InvalidSyntax "Right side of assertion is empty"))
        else
          match parse_value_path leftStr with
          | .error e => some (.error e)
          | .ok left =>
            match parse_assert_value rightStr with
            | none => none
            | some right => some (.ok (.Compare left op right))

/-! ## HTTP response model (`src/http/response.rs`, `src/http/types.rs`)

The de-facto response shape the evaluator and executor consume: status
code, headers, body text and elapsed milliseconds. -/

structure Response where
  status : Nat
  headers : List (String × String)
  body : String
  durationMs : Nat
deriving DecidableEq

/-- `Status::is_success` (`src/http/types.rs`). -/
def Response.isSuccess (r : Response) : Bool :=
  200 ≤ r.status && r.status ≤ 299

/-- Model of `reqwest::header::HeaderMap::get`: case-insensitive lookup of
the first matching header. -/
def headerGet (headers : List (String × String)) (name : String) :
    Option String :=
  (headers.find? (fun p => lowStr p.1 = lowStr name)).map (·.2)

/-! ## Value extraction (`src/assertion/extractor.rs`) -/

/-- `json_value_to_assert_value` from `src/assertion/extractor.rs`. -/
def json_value_to_assert_value : Json → Except AssertError AssertValue
  | .number q => .ok (.Number (.fin q))
  | .string s => .ok (.String s)
  | .boolean b => .ok (.Bool b)
  | .null => .ok .Null
  | .array _ => .error (.ExtractionError "Cannot compare arrays or objects directly")
  | .object _ => .error (.ExtractionError "Cannot compare arrays or objects directly")

/-- The traversal loop of `extract_from_json_body`. -/
def jsonTraverse (segments : List String) (path : String) :
    Json → Except AssertError Json
  | v =>
    match segments with
    | [] => .ok v
    | seg :: rest =>
      match v.getKey seg with
      | some next => jsonTraverse rest path next
      | none => .error (.PathNotFound ("Path body." ++ path ++ " not found"))

/-- `extract_from_json_body` from `src/assertion/extractor.rs`. -/
def extract_from_json_body (body : String) (segments : List String) :
    Except AssertError AssertValue :=
  match parseJson body with
  | none => .error (.JsonError "invalid JSON")
  | some json =>
    match jsonTraverse segments (String.intercalate "." segments) json with
    | .ok v => json_value_to_assert_value v
    | .error e => .error e

/-- `extract_value` from `src/assertion/extractor.rs`.  Header values are
Lean strings, so the `to_str` conversion of the Rust original cannot fail
here; its `ExtractionError` branch is unrepresentable in this model. -/
def extract_value (response : Response) (path : ValuePath) :
    Except AssertError AssertValue :=
  match path with
  | .Status => .ok (.Number (.fin (response.status : ℚ)))
  | .Header name =>
    match headerGet response.headers name with
    | some v => .ok (.String v)
    | none => .error (.PathNotFound ("Header " ++ name ++ " not found"))
  | .Body segments => extract_from_json_body response.body segments
  | .ResponseTime => .ok (.Number (.fin (response.durationMs : ℚ)))

/-! ## Assertion evaluation (`src/assertion/evaluator.rs`) -/

/-- `format_assertion` from `src/assertion/evaluator.rs`. -/
def format_assertion : AssertExpr → String
  | .Compare left op right =>
    left.render ++ " " ++ op.asStr ++ " " ++ renderValue right
  | .Exists path => path.render ++ " exists"

/-- `evaluate_assertion` from `src/assertion/evaluator.rs`. -/
def evaluate_assertion (assertion : AssertExpr) (response : Response) :
    AssertionResult :=
  let raw := format_assertion assertion
  match assertion with
  | .Compare left op right =>
    match extract_value response left with
    | .error e => AssertionResult.error raw e
    | .ok actualValue =>
      match compareValue actualValue op right with
      | .ok passed =>
        let actualStr := renderValue actualValue
        let expectedStr := op.asStr ++ " " ++ renderValue right
        if passed then AssertionResult.success raw actualStr expectedStr
        else
          AssertionResult.failure raw actualStr expectedStr
            ("Expected " ++ left.render ++ " to be " ++ expectedStr ++
              ", but got " ++ actualStr)
      | .error e => AssertionResult.error raw e
  | .Exists path =>
    match extract_value response path with
    | .ok value =>
      AssertionResult.success raw (renderValue value) "exists"
    | .error _ =>
      AssertionResult.failure raw "not found" "exists"
        ("Expected " ++ path.render ++ " to exist, but it was not found")

end Rupost

namespace Rupost

/-! ## Variable store (`src/variable/types.rs`)

The `HashMap` is represented as an association list in which earlier
entries shadow later ones (the head is the most recent insertion); lookup
takes the first match, so insertion overwrites and nothing is ever
deleted. -/

structure VariableContext where
  pairs : List (String × String)
deriving DecidableEq

/-- `VariableContext::new`. -/
def VariableContext.empty : VariableContext := ⟨[]⟩

/-- `VariableContext::get`. -/
def VariableContext.get (ctx : VariableContext) (key : String) :
    Option String :=
  (ctx.pairs.find? (fun p => p.1 = key)).map (·.2)

/-- `VariableContext::insert`. -/
def VariableContext.insert (ctx : VariableContext) (key value : String) :
    VariableContext :=
  ⟨(key, value) :: ctx.pairs⟩

/-- `VariableContext::extend`: every key of `vars` (itself newest-first)
shadows the existing entries. -/
def VariableContext.extend (ctx : VariableContext)
    (vars : List (String × String)) : VariableContext :=
  ⟨vars ++ ctx.pairs⟩

/-! ## Variable resolution (`src/variable/resolver.rs`)

The two regexes of the resolver are deterministic (their character classes
exclude the closing brace), so `replace_all` is modelled exactly by a
left-to-right scan that attempts a match at each position and never
rescans replacement text. -/

/-- First character of a `\x7b\x7bname\x7d\x7d` session placeholder:
`[a-zA-Z_]`. -/
def isNameStart (c : Char) : Bool :=
  ('a' ≤ c && c ≤ 'z') || ('A' ≤ c && c ≤ 'Z') || c = '_'

/-- Later characters of a session placeholder name: `[a-zA-Z0-9_]`. -/
def isNameCh (c : Char) : Bool :=
  isNameStart c || isDigitCh c

/-- First character of a `$\x7bNAME\x7d` environment placeholder: `[A-Z_]`. -/
def isEnvStart (c : Char) : Bool :=
  ('A' ≤ c && c ≤ 'Z') || c = '_'

/-- Later characters of an environment placeholder name: `[A-Z0-9_]`. -/
def isEnvCh (c : Char) : Bool :=
  isEnvStart c || isDigitCh c

/-- Try to match the session-variable regex at the head of the input,
returning the captured name and the remainder after the match. -/
def tryVar : List Char → Option (List Char × List Char)
  | a :: b :: c :: cs =>
    if a = '{' && b = '{' && isNameStart c then
      match cs.dropWhile isNameCh with
      | '}' :: '}' :: tail => some (c :: cs.takeWhile isNameCh, tail)
      | _ => none
    else none
  | _ => none

/-- Try to match the environment-variable regex at the head of the input. -/
def tryEnv : List Char → Option (List Char × List Char)
  | a :: b :: c :: cs =>
    if a = '$' && b = '{' && isEnvStart c then
      match cs.dropWhile isEnvCh with
      | '}' :: tail => some (c :: cs.takeWhile isEnvCh, tail)
      | _ => none
    else none
  | _ => none

end Rupost

namespace Rupost

/-- `VariableResolver::substitute` as a fuelled scan (structural in the
fuel so that the kernel can evaluate it; a placeholder match consumes at
least four characters, so `fuel = length` always suffices and the
fuel-exhausted arm is unreachable). -/
def substCharsF (ctx : VariableContext) : Nat → List Char → List Char
  | 0, l => l
  | _, [] => []
  | fuel + 1, c :: cs =>
    match tryVar (c :: cs) with
    | some (nm, rest) =>
      (match ctx.get ⟨nm⟩ with
       | some v => v.data
       | none => '{' :: '{' :: nm ++ ['}', '}']) ++ substCharsF ctx fuel rest
    | none => c :: substCharsF ctx fuel cs

/-- `VariableResolver::substitute`: replace every session placeholder,
leaving unmatched names verbatim (`replace_all` left-to-right scan). -/
def substChars (ctx : VariableContext) (l : List Char) : List Char :=
  substCharsF ctx l.length l

/-- `VariableResolver::resolve_env_vars` as a fuelled scan. -/
def envCharsF (env : String → Option String) : Nat → List Char → List Char
  | 0, l => l
  | _, [] => []
  | fuel + 1, c :: cs =>
    match tryEnv (c :: cs) with
    | some (nm, rest) =>
      (match env ⟨nm⟩ with
       | some v => v.data
       | none => '$' :: '{' :: nm ++ ['}']) ++ envCharsF env fuel rest
    | none => c :: envCharsF env fuel cs

/-- `VariableResolver::resolve_env_vars`: replace every environment
placeholder using the OS environment model `env`. -/
def envChars (env : String → Option String) (l : List Char) : List Char :=
  envCharsF env l.length l

/-- `VariableResolver::substitute` on strings. -/
def substitute (text : String) (ctx : VariableContext) : String :=
  ⟨substChars ctx text.data⟩

/-- `VariableResolver::resolve_env_vars` on strings. -/
def resolve_env_vars (env : String → Option String) (text : String) : String :=
  ⟨envChars env text.data⟩

/-- `VariableResolver::resolve`: environment phase first, then session
phase. -/
def resolve (env : String → Option String) (text : String)
    (ctx : VariableContext) : String :=
  substitute (resolve_env_vars env text) ctx

/-- Does the session-variable regex match anywhere in the input? -/
def hasVarPh : List Char → Bool
  | [] => false
  | c :: cs => (tryVar (c :: cs)).isSome || hasVarPh cs

/-- Does the environment-variable regex match anywhere in the input? -/
def hasEnvPh : List Char → Bool
  | [] => false
  | c :: cs => (tryEnv (c :: cs)).isSome || hasEnvPh cs

/-- A string is placeholder-free when neither regex matches it. -/
def placeholderFree (s : String) : Bool :=
  !hasEnvPh s.data && !hasVarPh s.data

end Rupost

namespace Rupost

/-! ## Variable capture (`src/variable/capture.rs`) -/

/-- The `RupostError` variants exercised by capture (`src/error.rs`). -/
inductive RupostError where
  | ParseError (msg : String)
  | Other (msg : String)
deriving DecidableEq

/-- `CaptureSource` from `src/variable/capture.rs`. -/
inductive CaptureSource where
  | Body (path : String)
  | Header (name : String)
  | TraceHeader
  | Cookie (s : String)
  | Regex (s : String)
deriving DecidableEq

/-- `VariableCapture` from `src/variable/capture.rs`. -/
structure VariableCapture where
  name : String
  source : CaptureSource
deriving DecidableEq

/-- `VariableCapture::parse`: `body.`/`header.` prefixes, defaulting to a
body path. -/
def VariableCapture.parse (varName sourceStr : String) : VariableCapture :=
  match dropPre "body.".data sourceStr.data with
  | some path => ⟨varName, .Body ⟨path⟩⟩
  | none =>
    match dropPre "header.".data sourceStr.data with
    | some hname => ⟨varName, .Header ⟨hname⟩⟩
    | none => ⟨varName, .Body sourceStr⟩

/-- Escape one character inside a rendered JSON string (model of
`serde_json` output, enough for round-tripping the values that occur). -/
def escOut (c : Char) : List Char :=
  if c = '"' then ['\\', '"']
  else if c = '\\' then ['\\', '\\']
  else if c = '\n' then ['\\', 'n']
  else if c = '\t' then ['\\', 't']
  else if c = '\r' then ['\\', 'r']
  else [c]

mutual

/-- Model of `serde_json::Value::to_string` (compact rendering). -/
def jsonRender : Json → String
  | .null => "null"
  | .boolean b => if b then "true" else "false"
  | .number q => numRender q
  | .string s => ⟨'"' :: s.data.flatMap escOut ++ ['"']⟩
  | .array xs => "[" ++ jsonRenderElems xs ++ "]"
  | .object fs => "\x7b" ++ jsonRenderFields fs ++ "\x7d"

def jsonRenderElems : List Json → String
  | [] => ""
  | [x] => jsonRender x
  | x :: xs => jsonRender x ++ "," ++ jsonRenderElems xs

def jsonRenderFields : List (String × Json) → String
  | [] => ""
  | [(k, v)] => ⟨'"' :: k.data.flatMap escOut ++ ['"']⟩ ++ ":" ++ jsonRender v
  | (k, v) :: fs =>
    ⟨'"' :: k.data.flatMap escOut ++ ['"']⟩ ++ ":" ++ jsonRender v ++ "," ++
      jsonRenderFields fs

end

/-- The traversal loop of `extract_from_json_path` (`src/variable/capture.rs`):
object-key lookup only. -/
def capTraverse (path : String) : List String → Json → Except RupostError Json
  | [], v => .ok v
  | part :: rest, v =>
    match v with
    | .object members =>
      match (members.find? (fun p => p.1 = part)).map (·.2) with
      | some next => capTraverse path rest next
      | none =>
        .error (.Other ("Key " ++ part ++ " not found in path " ++ path))
    | _ =>
      .error (.Other ("Cannot navigate path " ++ path ++ " on non-object value"))

/-- `extract_from_json_path` from `src/variable/capture.rs`. -/
def extract_from_json_path (json : Json) (path : String) :
    Except RupostError String :=
  let parts := (splitDot path.data).map (fun l => (⟨l⟩ : String))
  match capTraverse path parts json with
  | .error e => .error e
  | .ok leaf =>
    match leaf with
    | .string s => .ok s
    | .number n => .ok (numRender n)
    | .boolean b => .ok (if b then "true" else "false")
    | .null => .ok "null"
    | v => .ok (jsonRender v)

/-- One iteration of the capture loop of `capture_from_response`. -/
def captureOne (bodyValue : Option Json) (headers : List (String × String))
    (c : VariableCapture) : Except RupostError String :=
  match c.source with
  | .Body path =>
    match bodyValue with
    | some json => extract_from_json_path json path
    | none =>
      .error (.ParseError
        ("Response body is not valid JSON, cannot capture " ++ c.name))
  | .Header name =>
    match headerGet headers name with
    | some v => .ok v
    | none => .error (.Other ("Header " ++ name ++ " not found"))
  | _ => .error (.Other ("Unsupported capture source for " ++ c.name))

/-- The capture loop: evaluates captures in order, inserting into the
result map (newest-first representation); the first error aborts the whole
call, discarding values captured so far. -/
def captureLoop (bodyValue : Option Json) (headers : List (String × String)) :
    List VariableCapture → List (String × String) →
    Except RupostError (List (String × String))
  | [], acc => .ok acc
  | c :: rest, acc =>
    match captureOne bodyValue headers c with
    | .error e => .error e
    | .ok v => captureLoop bodyValue headers rest ((c.name, v) :: acc)

/-- Is a capture a body capture? (`matches!(c.source, CaptureSource::Body(_))`). -/
def isBodyCapture (c : VariableCapture) : Bool :=
  match c.source with
  | .Body _ => true
  | _ => false

/-- `capture_from_response` from `src/variable/capture.rs`. -/
def capture_from_response (responseBody : String)
    (responseHeaders : List (String × String))
    (captures : List VariableCapture) :
    Except RupostError (List (String × String)) :=
  if captures.isEmpty then .ok []
  else
    let bodyValue :=
      if captures.any isBodyCapture then parseJson responseBody else none
    captureLoop bodyValue responseHeaders captures []

end Rupost

namespace Rupost

/-! ## Document parsing (`src/parser/types.rs`, `src/parser/http_file.rs`) -/

/-- `ParseError` from `src/parser/types.rs`. -/
inductive ParseError where
  | InvalidFormat (line : Nat) (message : String)
  | MissingUrl (line : Nat)
  | InvalidMetadata (line : Nat) (message : String)
  | InvalidMethod (method : String) (line : Nat)
  | InvalidHeader (line : Nat)
  | Io (message : String)
  | NoRequests
deriving DecidableEq

/-- `RequestMetadata`: the field set of `src/parser/metadata_types.rs`
(name, skip, timeout, assertions, captures), which is what the executor
reads; durations are milliseconds.  The parser in `http_file.rs` never
writes the last two fields. -/
structure RequestMetadata where
  name : Option String := none
  skip : Bool := false
  timeoutMs : Option Nat := none
  assertions : List String := []
  captures : List VariableCapture := []
deriving DecidableEq

/-- `ParsedRequest` from `src/parser/types.rs`. -/
structure ParsedRequest where
  method : Option String := none
  url : String := ""
  headers : List (String × String) := []
  body : Option String := none
  metadata : RequestMetadata := {}
  lineNumber : Nat := 1
deriving DecidableEq

/-- `ParsedRequest::method_or_default`. -/
def ParsedRequest.methodOrDefault (r : ParsedRequest) : String :=
  r.method.getD "GET"

/-- `ParsedRequest::should_skip`. -/
def ParsedRequest.shouldSkip (r : ParsedRequest) : Bool :=
  r.metadata.skip

/-- `ParsedFile` from `src/parser/types.rs` (without the source path). -/
structure ParsedFile where
  requests : List ParsedRequest
deriving DecidableEq

/-- `HttpFileParser::is_comment`. -/
def is_comment (l : String) : Bool :=
  hasPre ['#'] l.data || hasPre ['/', '/'] l.data

/-- `HttpFileParser::is_metadata`. -/
def is_metadata (l : String) : Bool :=
  hasPre ['@'] l.data

/-- Model of `str::parse::<bool>`: exactly `true` or `false`. -/
def parseBool (l : List Char) : Option Bool :=
  if l = "true".data then some true
  else if l = "false".data then some false
  else none

/-- `HttpFileParser::parse_duration` (result in milliseconds). -/
def parse_duration (s : String) (lineNumber : Nat) : Except ParseError Nat :=
  let t := strTrim s
  match dropSuf "ms".data t.data with
  | some ms =>
    match parseU64 ms with
    | some n => .ok n
    | none => .error (.InvalidMetadata lineNumber ("Invalid duration: " ++ t))
  | none =>
    match dropSuf ['s'] t.data with
    | some sec =>
      match parseU64 sec with
      | some n => .ok (n * 1000)
      | none => .error (.InvalidMetadata lineNumber ("Invalid duration: " ++ t))
    | none =>
      match dropSuf ['m'] t.data with
      | some mins =>
        match parseU64 mins with
        | some n => .ok (n * 60 * 1000)
        | none =>
          .error (.InvalidMetadata lineNumber ("Invalid duration: " ++ t))
      | none =>
        .error (.InvalidMetadata lineNumber
          ("Duration must end with ms, s, or m: " ++ t))

/-- `HttpFileParser::parse_metadata_line`: handles `@name`, `@skip` and
`@timeout` only; any other `@` directive (`@assert`, `@capture`, …) falls
through all three branches and is silently dropped. -/
def parse_metadata_line (line : String) (lineNumber : Nat)
    (metadata : RequestMetadata) : Except ParseError RequestMetadata :=
  let line := strTrim line
  match dropPre "@name".data line.data with
  | some name => .ok { metadata with name := some (strTrim ⟨name⟩) }
  | none =>
    if hasPre "@skip".data line.data then
      let value :=
        match dropPre "@skip".data line.data with
        | some s =>
          let t := trimChars s
          if t = [] then true else (parseBool t).getD true
        | none => true
      .ok { metadata with skip := value }
    else
      match dropPre "@timeout".data line.data with
      | some ts =>
        match parse_duration (strTrim ⟨ts⟩) lineNumber with
        | .ok d => .ok { metadata with timeoutMs := some d }
        | .error e => .error e
      | none => .ok metadata

/-- `HttpFileParser::parse_header`. -/
def parse_header (line : String) : Option (String × String) :=
  match findSub [':'] line.data with
  | some colonPos =>
    let key := trimChars (line.data.take colonPos)
    let value := trimChars (line.data.drop (colonPos + 1))
    if key ≠ [] then some (⟨key⟩, ⟨value⟩) else none
  | none => none

/-- `HttpFileParser::parse_request_line`. -/
def parse_request_line (line : String) (lineNumber : Nat)
    (request : ParsedRequest) : Except ParseError ParsedRequest :=
  let parts := splitWs line.data
  match parts with
  | [] => .error (.InvalidFormat lineNumber "Empty request line")
  | [u] => .ok { request with url := ⟨u⟩, method := none }
  | [m, u] =>
    let method := upStr ⟨m⟩
    let validMethods : List String :=
      ["GET", "POST", "PUT", "DELETE", "PATCH", "HEAD", "OPTIONS"]
    if validMethods.contains method then
      .ok { request with method := some method, url := ⟨u⟩ }
    else .error (.InvalidMethod method lineNumber)
  | _ => .error (.InvalidFormat lineNumber "Too many parts in request line")

/-- The metadata-and-blank-skipping prefix loop of `parse_request_block`:
returns the accumulated metadata, the remaining lines and the line number
of the first remaining line. -/
def metaPhase : List String → Nat → RequestMetadata →
    Except ParseError (RequestMetadata × List String × Nat)
  | [], n, md => .ok (md, [], n)
  | l :: rest, n, md =>
    let t := strTrim l
    if t = "" || is_comment t then metaPhase rest (n + 1) md
    else if is_metadata t then
      match parse_metadata_line t n md with
      | .ok md' => metaPhase rest (n + 1) md'
      | .error e => .error e
    else .ok (md, l :: rest, n)

/-- The header loop of `parse_request_block`: collects headers up to the
first blank line and returns them with the remaining (body) lines. -/
def headerPhase : List String → List (String × String) →
    List (String × String) × List String
  | [], acc => (acc, [])
  | l :: rest, acc =>
    let t := strTrim l
    if t = "" then (acc, rest)
    else if is_comment t then headerPhase rest acc
    else
      match parse_header t with
      | some kv => headerPhase rest (acc ++ [kv])
      | none => headerPhase rest acc

/-- `HttpFileParser::parse_request_block`. -/
def parse_request_block (block : String) (startLine : Nat) :
    Except ParseError (Option ParsedRequest) :=
  let lines := rustLines block
  if lines = [] then .ok none
  else
    match metaPhase lines startLine {} with
    | .error e => .error e
    | .ok (_, [], _) => .ok none
    | .ok (md, l :: rest, n) =>
      match parse_request_line (strTrim l) n
          { lineNumber := startLine, metadata := md } with
      | .error e => .error e
      | .ok req =>
        let (headers, bodyLines) := headerPhase rest []
        let bodyJoined := strTrim (String.intercalate "\n" bodyLines)
        let req := { req with
          headers := headers
          body := if bodyJoined = "" then none else some bodyJoined }
        if req.url = "" then .error (.MissingUrl startLine)
        else .ok (some req)

/-- The accumulation loop of `split_by_separator`. -/
def sepLoop : List String → List (String × Nat) → String → Nat → Nat →
    List (String × Nat) × String × Nat
  | [], blocks, cur, start, _ => (blocks, cur, start)
  | l :: rest, blocks, cur, start, line =>
    if hasPre "###".data (trimChars l.data) then
      let blocks :=
        if strTrim cur ≠ "" then blocks ++ [(cur, start)] else blocks
      sepLoop rest blocks "" (line + 1) (line + 1)
    else sepLoop rest blocks (cur ++ l ++ "\n") start (line + 1)

/-- The block list of `split_by_separator` before the whole-content
fallback: exactly the non-empty (after trimming) `###`-delimited blocks of
the document, in order. -/
def preBlocks (content : String) : List (String × Nat) :=
  let r := sepLoop (rustLines content) [] "" 1 1
  if strTrim r.2.1 ≠ "" then r.1 ++ [(r.2.1, r.2.2)] else r.1

/-- `HttpFileParser::split_by_separator`. -/
def split_by_separator (content : String) : List (String × Nat) :=
  if (preBlocks content).isEmpty && strTrim content ≠ "" then [(content, 1)]
  else preBlocks content

/-- The request-collecting loop of `parse_content`. -/
def collectRequests : List (String × Nat) →
    Except ParseError (List ParsedRequest)
  | [] => .ok []
  | (block, start) :: rest =>
    match parse_request_block block start with
    | .error e => .error e
    | .ok none => collectRequests rest
    | .ok (some req) =>
      match collectRequests rest with
      | .error e => .error e
      | .ok reqs => .ok (req :: reqs)

/-- `HttpFileParser::parse_content`. -/
def parse_content (content : String) : Except ParseError ParsedFile :=
  let blocks := split_by_separator content
  if blocks.isEmpty then .error .NoRequests
  else
    match collectRequests blocks with
    | .error e => .error e
    | .ok reqs => if reqs.isEmpty then .error .NoRequests else .ok ⟨reqs⟩

end Rupost

namespace Rupost

/-! ## Execution (`src/runner/types.rs`, `src/runner/executor.rs`)

The external HTTP transport (`Client::execute`) and the fallible request
build (`ParsedRequest::try_into`, which delegates URL parsing to the
external `url` crate) are parameters: `client` returns either a response
or a transport error with the elapsed time, and `build` returns
`some message` exactly when the build fails.  The best-effort history
append has no observable effect on the run and is not threaded here. -/

/-- Outcome of the external transport dispatch. -/
inductive TransportOutcome where
  | ok (response : Response)
  | err (msg : String) (elapsedMs : Nat)
deriving DecidableEq

/-- `TestResult` from `src/runner/types.rs`. -/
structure TestResult where
  requestNumber : Nat
  name : Option String
  method : String
  url : String
  status : Option Nat
  durationMs : Nat
  success : Bool
  error : Option String
  response : Option Response
  skipped : Bool
  assertions : List AssertionResult
deriving DecidableEq

/-- `TestResult::success`. -/
def TestResult.mkSuccess (requestNumber : Nat) (name : Option String)
    (method url : String) (response : Response) : TestResult :=
  { requestNumber, name, method, url
    status := some response.status
    durationMs := response.durationMs
    success := response.isSuccess
    error := none
    response := some response
    skipped := false
    assertions := [] }

/-- `TestResult::error`. -/
def TestResult.mkError (requestNumber : Nat) (name : Option String)
    (method url error : String) (durationMs : Nat) : TestResult :=
  { requestNumber, name, method, url
    status := none
    durationMs
    success := false
    error := some error
    response := none
    skipped := false
    assertions := [] }

/-- `TestResult::skipped`. -/
def TestResult.mkSkipped (requestNumber : Nat) (name : Option String)
    (method url : String) : TestResult :=
  { requestNumber, name, method, url
    status := none
    durationMs := 0
    success := true
    error := none
    response := none
    skipped := true
    assertions := [] }

/-- The variable-resolution step of `execute_one`: url, header values and
body. -/
def resolveRequest (env : String → Option String) (ctx : VariableContext)
    (parsed : ParsedRequest) : ParsedRequest :=
  { parsed with
    url := resolve env parsed.url ctx
    headers := parsed.headers.map (fun p => (p.1, resolve env p.2 ctx))
    body := parsed.body.map (fun b => resolve env b ctx) }

/-- The capture step of `execute_one`: merge successfully captured values,
leave the store untouched on a capture error (which is only logged). -/
def captureStep (ctx : VariableContext) (captures : List VariableCapture)
    (response : Response) : VariableContext :=
  if captures.isEmpty then ctx
  else
    match capture_from_response response.body response.headers captures with
    | .ok vars => ctx.extend vars
    | .error _ => ctx

/-- The assertion step of `execute_one`: resolve each raw assertion string
against the (post-capture) store, then parse and evaluate it; a parse
`Err` becomes an error-shaped result, while a parse panic (`none`) aborts
the whole step, as the Rust panic aborts the run. -/
def assertionStep (env : String → Option String) (ctx : VariableContext) :
    List String → Response → Option (List AssertionResult)
  | [], _ => some []
  | astr :: rest, response =>
    let resolved := resolve env astr ctx
    match parse_assertion resolved with
    | none => none
    | some (.ok expr) =>
      (assertionStep env ctx rest response).map
        (fun rs => evaluate_assertion expr response :: rs)
    | some (.error e) =>
      (assertionStep env ctx rest response).map
        (fun rs => AssertionResult.error astr e :: rs)

/-- `TestExecutor::execute_one`; `none` models an assertion-parse panic
escaping the step (every other path, including every kind of error, is a
`some`). -/
def execute_one (env : String → Option String)
    (build : ParsedRequest → Option String)
    (client : ParsedRequest → TransportOutcome)
    (parsed : ParsedRequest) (requestNumber : Nat)
    (ctx : VariableContext) : Option (TestResult × VariableContext) :=
  let parsed := resolveRequest env ctx parsed
  let method := parsed.methodOrDefault
  let url := parsed.url
  let name := parsed.metadata.name
  let assertionsToEval := parsed.metadata.assertions
  let capturesToEval := parsed.metadata.captures
  match build parsed with
  | some e =>
    some (TestResult.mkError requestNumber name method url
      ("Failed to build request: " ++ e) 0, ctx)
  | none =>
    match client parsed with
    | .err e elapsed =>
      some (TestResult.mkError requestNumber name method url
        ("Request failed: " ++ e) elapsed, ctx)
    | .ok response =>
      let ctx := captureStep ctx capturesToEval response
      match assertionStep env ctx assertionsToEval response with
      | none => none
      | some results =>
        let tr := TestResult.mkSuccess requestNumber name method url response
        let tr := { tr with
          assertions := results
          success := tr.success && !results.any (fun a => !a.passed) }
        some (tr, ctx)

/-- The loop body of `execute_all` (index is zero-based; the request
number is `index + 1`); `none` propagates an assertion-parse panic, which
aborts the whole batch. -/
def executeFrom (env : String → Option String)
    (build : ParsedRequest → Option String)
    (client : ParsedRequest → TransportOutcome) :
    List ParsedRequest → Nat → VariableContext →
    Option (List TestResult × VariableContext)
  | [], _, ctx => some ([], ctx)
  | p :: rest, index, ctx =>
    if p.shouldSkip then
      let r := TestResult.mkSkipped (index + 1) p.metadata.name
        p.methodOrDefault p.url
      (executeFrom env build client rest (index + 1) ctx).map
        (fun rc => (r :: rc.1, rc.2))
    else
      match execute_one env build client p (index + 1) ctx with
      | none => none
      | some (r, ctx1) =>
        (executeFrom env build client rest (index + 1) ctx1).map
          (fun rc => (r :: rc.1, rc.2))

/-- `TestExecutor::execute_all`. -/
def execute_all (env : String → Option String)
    (build : ParsedRequest → Option String)
    (client : ParsedRequest → TransportOutcome)
    (file : ParsedFile) (ctx : VariableContext) :
    Option (List TestResult × VariableContext) :=
  executeFrom env build client file.requests 0 ctx

end Rupost

namespace Rupost

/-! ## Substitution identity lemmas (claim C5) -/

theorem substCharsF_id (ctx : VariableContext) (fuel : Nat) (l : List Char)
    (h : hasVarPh l = false) : substCharsF ctx fuel l = l := by
  induction fuel generalizing l with
  | zero => cases l <;> rfl
  | succ fuel ih =>
    cases l with
    | nil => rfl
    | cons c cs =>
      have h1 : tryVar (c :: cs) = none := by
        rw [hasVarPh, Bool.or_eq_false_iff] at h
        cases htv : tryVar (c :: cs) with
        | none => rfl
        | some p => rw [htv] at h; simp at h
      have h2 : hasVarPh cs = false := by
        rw [hasVarPh, Bool.or_eq_false_iff] at h
        exact h.2
      rw [substCharsF, h1]
      exact congrArg (c :: ·) (ih cs h2)

theorem substChars_id (ctx : VariableContext) (l : List Char)
    (h : hasVarPh l = false) : substChars ctx l = l :=
  substCharsF_id ctx l.length l h

theorem envCharsF_id (env : String → Option String) (fuel : Nat)
    (l : List Char) (h : hasEnvPh l = false) : envCharsF env fuel l = l := by
  induction fuel generalizing l with
  | zero => cases l <;> rfl
  | succ fuel ih =>
    cases l with
    | nil => rfl
    | cons c cs =>
      have h1 : tryEnv (c :: cs) = none := by
        rw [hasEnvPh, Bool.or_eq_false_iff] at h
        cases htv : tryEnv (c :: cs) with
        | none => rfl
        | some p => rw [htv] at h; simp at h
      have h2 : hasEnvPh cs = false := by
        rw [hasEnvPh, Bool.or_eq_false_iff] at h
        exact h.2
      rw [envCharsF, h1]
      exact congrArg (c :: ·) (ih cs h2)

theorem envChars_id (env : String → Option String) (l : List Char)
    (h : hasEnvPh l = false) : envChars env l = l :=
  envCharsF_id env l.length l h

theorem resolve_id (env : String → Option String) (ctx : VariableContext)
    (s : String) (h : placeholderFree s = true) : resolve env s ctx = s := by
  have hd : hasEnvPh s.data = false ∧ hasVarPh s.data = false := by
    simpa [placeholderFree] using h
  have he : resolve_env_vars env s = s := by
    rw [resolve_env_vars, envChars_id env s.data hd.1]
  rw [resolve, he]
  rw [substitute, substChars_id ctx s.data hd.2]

/-- C5: variable resolution is idempotent once no placeholders remain, and
an already-placeholder-free string resolves to itself. -/
theorem C5_resolve_idempotent (env : String → Option String)
    (ctx : VariableContext) (s : String)
    (h : placeholderFree (resolve env s ctx) = true) :
    resolve env (resolve env s ctx) ctx = resolve env s ctx ∧
    (placeholderFree s = true → resolve env s ctx = s) := by
  constructor
  · exact resolve_id env ctx (resolve env s ctx) h
  · intro hs
    exact resolve_id env ctx s hs

theorem C5_witness :
    placeholderFree (resolve (fun _ => none)
      "http://example.com/api?q=1" VariableContext.empty) = true ∧
    resolve (fun _ => none)
        (resolve (fun _ => none) "http://example.com/api?q=1"
          VariableContext.empty) VariableContext.empty =
      resolve (fun _ => none) "http://example.com/api?q=1"
        VariableContext.empty :=
  ⟨by decide, (C5_resolve_idempotent (fun _ => none) VariableContext.empty
    "http://example.com/api?q=1" (by decide)).1⟩

end Rupost

namespace Rupost

instance {e a : Type _} [DecidableEq e] [DecidableEq a] :
    DecidableEq (Except e a) := fun x y =>
  match x, y with
  | .ok u, .ok v =>
    if h : u = v then .isTrue (congrArg Except.ok h)
    else .isFalse (fun he => h (Except.ok.inj he))
  | .error u, .error v =>
    if h : u = v then .isTrue (congrArg Except.error h)
    else .isFalse (fun he => h (Except.error.inj he))
  | .ok _, .error _ => .isFalse (fun he => Except.noConfusion he)
  | .error _, .ok _ => .isFalse (fun he => Except.noConfusion he)

/-- C4 counterexample: a NaN number is reachable from assertion text —
`str::parse::<f64>` accepts the spelling `nan`, so the right side of
`status != nan` is `Number(NaN)` — and on NaN operands both `==`
(`|a-b| < ε`) and `!=` (`|a-b| ≥ ε`) evaluate to `false`, so `!=` is not
the exact negation of `==` on every pair of numbers. -/
theorem C4_counterexample :
    parse_assert_value "nan".data = some (AssertValue.Number F64.nan) ∧
    compareValue (.Number F64.nan) .Equal (.Number F64.nan) = .ok false ∧
    compareValue (.Number F64.nan) .NotEqual (.Number F64.nan) = .ok false :=
  ⟨by decide, by decide, by decide⟩

/-- C4 amended: on finite numbers the ordering operators agree with the
numeric order, `==` holds iff `|a - b| < ε`, and `!=` holds iff
`|a - b| ≥ ε` — the exact negation of `==` on finite operands only: with
a NaN operand `==` and `!=` are both false; `contains` on two numbers is
a type error. -/
theorem C4_number_compare (a b : ℚ) :
    (compareValue (.Number (.fin a)) .Greater (.Number (.fin b)) = .ok true ↔
      a > b) ∧
    (compareValue (.Number (.fin a)) .Less (.Number (.fin b)) = .ok true ↔
      a < b) ∧
    (compareValue (.Number (.fin a)) .GreaterOrEqual (.Number (.fin b)) =
      .ok true ↔ a ≥ b) ∧
    (compareValue (.Number (.fin a)) .LessOrEqual (.Number (.fin b)) =
      .ok true ↔ a ≤ b) ∧
    (compareValue (.Number (.fin a)) .Equal (.Number (.fin b)) = .ok true ↔
      |a - b| < eps) ∧
    (compareValue (.Number (.fin a)) .NotEqual (.Number (.fin b)) = .ok true ↔
      ¬ |a - b| < eps) ∧
    (∀ x, compareValue (.Number F64.nan) .Equal (.Number x) = .ok false ∧
      compareValue (.Number F64.nan) .NotEqual (.Number x) = .ok false ∧
      compareValue (.Number x) .Equal (.Number F64.nan) = .ok false ∧
      compareValue (.Number x) .NotEqual (.Number F64.nan) = .ok false) ∧
    compareValue (.Number (.fin a)) .Contains (.Number (.fin b)) =
      .error (.TypeMismatch "string" "number") := by
  refine ⟨?_, ?_, ?_, ?_, ?_, ?_, fun x => ?_, rfl⟩
  · simp [compareValue, F64.lt, decide_eq_true_iff]
  · simp [compareValue, F64.lt, decide_eq_true_iff]
  · simp [compareValue, F64.le, decide_eq_true_iff]
  · simp [compareValue, F64.le, decide_eq_true_iff]
  · simp [compareValue, F64.sub, F64.abs, F64.lt, epsF, decide_eq_true_iff]
  · simp [compareValue, F64.sub, F64.abs, F64.le, epsF, decide_eq_true_iff,
      not_lt]
  · cases x <;> exact ⟨rfl, rfl, rfl, rfl⟩

/-- C6 counterexample: the assertion `status == "` — a `Compare` whose
trimmed right side is a single quote character — makes the Rust parser
execute `&input[1..0]`, which panics and aborts the run instead of
becoming a failing result; in the model the panic is the `none` outcome,
which propagates through the executor's assertion step. -/
theorem C6_counterexample :
    parse_assert_value "\"".data = none ∧
    parse_assertion "status == \"" = none ∧
    assertionStep (fun _ => none) VariableContext.empty ["status == \""]
      ⟨200, [], "\x7b\x7d", 5⟩ = none :=
  ⟨by decide, by decide, by decide⟩

/-- C6 amended: `evaluate_assertion` itself is total — an `Exists`
assertion always carries an actual value and fails (with a message) rather
than erroring when the path is missing, and a `Compare` whose extraction
or comparison errs evaluates to the error-shaped result (`passed = false`,
no actual value, message set) — and in the executor's loop an assertion
whose parse returns `Err` becomes a failing result while a successful
parse is evaluated; the one exception to "never aborts" is the
`parse_assert_value` panic on a lone-quote right side, which escapes the
step (`C6_counterexample`). -/
theorem C6_evaluation_never_aborts (response : Response) :
    (∀ path,
      ((evaluate_assertion (.Exists path) response).passed =
        (extract_value response path).toOption.isSome) ∧
      (evaluate_assertion (.Exists path) response).actual.isSome = true ∧
      ((evaluate_assertion (.Exists path) response).passed = false →
        (evaluate_assertion (.Exists path) response).message.isSome = true)) ∧
    (∀ left op right e, extract_value response left = .error e →
      evaluate_assertion (.Compare left op right) response =
        AssertionResult.error (format_assertion (.Compare left op right)) e) ∧
    (∀ left op right v e, extract_value response left = .ok v →
      compareValue v op right = .error e →
      evaluate_assertion (.Compare left op right) response =
        AssertionResult.error (format_assertion (.Compare left op right)) e) ∧
    (∀ (env : String → Option String) (ctx : VariableContext) (raw : String)
        (e : AssertError),
      parse_assertion (resolve env raw ctx) = some (.error e) →
      assertionStep env ctx [raw] response =
        some [AssertionResult.error raw e]) ∧
    (∀ (env : String → Option String) (ctx : VariableContext) (raw : String)
        (expr : AssertExpr),
      parse_assertion (resolve env raw ctx) = some (.ok expr) →
      assertionStep env ctx [raw] response =
        some [evaluate_assertion expr response]) := by
  refine ⟨?_, ?_, ?_, ?_, ?_⟩
  · intro path
    cases hx : extract_value response path with
    | ok v =>
      simp [evaluate_assertion, hx, AssertionResult.success, Except.toOption]
    | error e =>
      simp [evaluate_assertion, hx, AssertionResult.failure, Except.toOption]
  · intro left op right e hx
    simp [evaluate_assertion, hx]
  · intro left op right v e hx hc
    simp [evaluate_assertion, hx, hc]
  · intro env ctx raw e hp
    simp [assertionStep, hp]
  · intro env ctx raw expr hp
    simp [assertionStep, hp]

theorem C6_witness :
    extract_value ⟨404, [], "\x7b\x7d", 100⟩ (.Body ["missing"]) =
      .error (.PathNotFound "Path body.missing not found") ∧
    evaluate_assertion
        (.Compare (.Body ["missing"]) .Equal (.Number (.fin 123)))
        ⟨404, [], "\x7b\x7d", 100⟩ =
      AssertionResult.error
        (format_assertion
          (.Compare (.Body ["missing"]) .Equal (.Number (.fin 123))))
        (.PathNotFound "Path body.missing not found") :=
  ⟨by decide, (C6_evaluation_never_aborts ⟨404, [], "\x7b\x7d", 100⟩).2.1
    (.Body ["missing"]) .Equal (.Number (.fin 123))
    (.PathNotFound "Path body.missing not found") (by decide)⟩

end Rupost

namespace Rupost

/-! ## Substring-search lemmas (claim C3) -/

theorem hasPre_iff (p l : List Char) : hasPre p l = true ↔ p <+: l := by
  induction p generalizing l with
  | nil => simp [hasPre]
  | cons a ps ih =>
    cases l with
    | nil => simp [hasPre]
    | cons c cs =>
      rw [hasPre, Bool.and_eq_true, List.cons_prefix_cons, decide_eq_true_iff]
      exact and_congr Iff.rfl (ih cs)

theorem findSub_some {pat l : List Char} {i : Nat}
    (h : findSub pat l = some i) :
    occursAt pat l i ∧ ∀ j < i, ¬ occursAt pat l j := by
  induction l generalizing i with
  | nil =>
    rw [findSub] at h
    split at h
    · cases h
      rename_i hp
      refine ⟨?_, by omega⟩
      simp only [List.isEmpty_iff] at hp
      simp [occursAt, hp]
    · cases h
  | cons c cs ih =>
    rw [findSub] at h
    split at h
    · cases h
      rename_i hp
      refine ⟨?_, by omega⟩
      simpa [occursAt] using (hasPre_iff pat (c :: cs)).mp hp
    · rename_i hp
      cases hf : findSub pat cs with
      | none => rw [hf] at h; cases h
      | some k =>
        rw [hf] at h
        simp only [Option.map_some'] at h
        cases h
        obtain ⟨hocc, hmin⟩ := ih hf
        refine ⟨by simpa [occursAt] using hocc, ?_⟩
        intro j hj
        cases j with
        | zero =>
          intro hc
          exact hp ((hasPre_iff pat (c :: cs)).mpr (by simpa [occursAt] using hc))
        | succ j0 =>
          intro hc
          exact hmin j0 (by omega) (by simpa [occursAt] using hc)

theorem findSub_none {pat l : List Char} (h : findSub pat l = none) :
    ∀ i, ¬ occursAt pat l i := by
  induction l with
  | nil =>
    intro i hc
    rw [findSub] at h
    split at h
    · cases h
    · rename_i hp
      simp only [List.isEmpty_iff] at hp
      simp only [occursAt, List.drop_nil] at hc
      exact hp (List.prefix_nil.mp hc)
  | cons c cs ih =>
    intro i hc
    rw [findSub] at h
    split at h
    · cases h
    · rename_i hp
      cases hf : findSub pat cs with
      | some k => rw [hf] at h; cases h
      | none =>
        cases i with
        | zero =>
          exact hp ((hasPre_iff pat (c :: cs)).mpr
            (by simpa [occursAt] using hc))
        | succ j =>
          exact ih hf j (by simpa [occursAt] using hc)

/-- The operator table scan, characterized over any table: the returned
operator occurs (`findSub` succeeds), and every table entry tried before
it occurs nowhere. -/
theorem findSomeTbl_some (t : List Char) :
    ∀ (tbl : List String) (op : String) (pos : Nat),
      tbl.findSome? (fun o => (findSub o.data t).map (fun p => (o, p))) =
        some (op, pos) →
      op ∈ tbl ∧ findSub op.data t = some pos ∧
        ∀ o2 ∈ tbl.takeWhile (fun o => o ≠ op), findSub o2.data t = none := by
  intro tbl
  induction tbl with
  | nil => intro op pos h; cases h
  | cons o rest ih =>
    intro op pos h
    rw [List.findSome?_cons] at h
    cases hf : findSub o.data t with
    | some p =>
      rw [hf] at h
      simp only [Option.map_some'] at h
      cases h
      refine ⟨List.mem_cons_self .., hf, ?_⟩
      intro o2 ho2
      rw [List.takeWhile_cons] at ho2
      simp at ho2
    | none =>
      rw [hf] at h
      simp only [Option.map_none'] at h
      obtain ⟨hmem, hsub, hbefore⟩ := ih op pos h
      refine ⟨List.mem_cons_of_mem o hmem, hsub, ?_⟩
      intro o2 ho2
      rw [List.takeWhile_cons] at ho2
      by_cases ho : o = op
      · simp [ho] at ho2
      · simp [ho] at ho2
        rcases ho2 with rfl | hmem2
        · exact hf
        · exact hbefore o2 (by simpa using hmem2)

theorem findSomeTbl_none (t : List Char) (tbl : List String)
    (h : ∀ op ∈ tbl, findSub op.data t = none) :
    tbl.findSome? (fun o => (findSub o.data t).map (fun p => (o, p))) =
      none := by
  induction tbl with
  | nil => rfl
  | cons o rest ih =>
    rw [List.findSome?_cons, h o (List.mem_cons_self ..)]
    exact ih (fun op hm => h op (List.mem_cons_of_mem o hm))

end Rupost

namespace Rupost

/-- C3 counterexample: in `status<9>=5` the left-most operator occurrence
is `<` at index 6, so a left-most-split parser would produce
`Compare Status Less (String "9>=5")`; the code instead finds `>=` first
(priority order, `find` anywhere in the string), splits there, and fails
on the left side `status<9` — an `InvalidSyntax` error although an
operator does occur in the input. -/
theorem C3_counterexample :
    occursAt "<".data "status<9>=5".data 6 ∧
    (∀ j < 6, ∀ op ∈ opsTable, ¬ occursAt op.data "status<9>=5".data j) ∧
    parse_assertion "status<9>=5" =
      some (.error (.InvalidSyntax ("Invalid value path: status<9" ++
        ". Must start with status, headers., body., or response.time"))) := by
  refine ⟨by decide, by decide, by decide⟩

/-- C3 amended: the scan tries the operators in the table's priority order
and takes the first one that occurs anywhere in the input, at that
operator's left-most occurrence (not the globally left-most operator
occurrence); the no-operator `InvalidSyntax` error is produced exactly
when none of the seven operator substrings occurs (the parse may still
fail later on an empty side or an invalid path). -/
theorem C3_operator_scan (s : String) (t : List Char)
    (ht : t = trimChars s.data) (hex : dropSuf "exists".data t = none) :
    ((∀ op ∈ opsTable, ∀ i, ¬ occursAt op.data t i) →
      parse_assertion s = some (.error (.InvalidSyntax
        ("No valid operator found in assertion: " ++ (⟨t⟩ : String))))) ∧
    (∀ op pos, findOp t = some (op, pos) →
      op ∈ opsTable ∧ occursAt op.data t pos ∧
      (∀ j < pos, ¬ occursAt op.data t j) ∧
      (∀ op2 ∈ opsTable.takeWhile (fun o => o ≠ op), ∀ i,
        ¬ occursAt op2.data t i)) := by
  constructor
  · intro hnone
    have hsub : ∀ op ∈ opsTable, findSub op.data t = none := by
      intro op hop
      cases hf : findSub op.data t with
      | none => rfl
      | some i => exact absurd (findSub_some hf).1 (hnone op hop i)
    have hfo : findOp t = none := findSomeTbl_none t opsTable hsub
    rw [parse_assertion, ← ht, hex, hfo]
  · intro op pos hfo
    obtain ⟨hmem, hsub, hbefore⟩ :=
      findSomeTbl_some t opsTable op pos (by simpa [findOp] using hfo)
    obtain ⟨hocc, hmin⟩ := findSub_some hsub
    exact ⟨hmem, hocc, hmin,
      fun op2 h2 i => findSub_none (hbefore op2 h2) i⟩

theorem C3_witness :
    dropSuf "exists".data (trimChars "status == 404".data) = none ∧
    findOp (trimChars "status == 404".data) = some ("==", 7) ∧
    occursAt "==".data (trimChars "status == 404".data) 7 ∧
    (∀ op2 ∈ opsTable.takeWhile (fun o => o ≠ "=="), ∀ i,
      ¬ occursAt op2.data (trimChars "status == 404".data) i) := by
  refine ⟨by decide, by decide, ?_, ?_⟩
  · exact ((C3_operator_scan "status == 404" _ rfl (by decide)).2 "==" 7
      (by decide)).2.1
  · exact ((C3_operator_scan "status == 404" _ rfl (by decide)).2 "==" 7
      (by decide)).2.2.2

end Rupost

namespace Rupost

/-! ## Executor lemmas (claims C7, C8, C10) -/

/-- After `extend`, every previously present key is still present. -/
theorem get_extend_isSome (ctx : VariableContext)
    (vars : List (String × String)) (k : String) (v : String)
    (h : ctx.get k = some v) :
    ∃ v2, (ctx.extend vars).get k = some v2 := by
  rw [VariableContext.extend]
  rw [VariableContext.get] at h ⊢
  simp only [List.find?_append]
  cases hv : vars.find? (fun p => p.1 = k) with
  | some p => exact ⟨p.2, by simp [hv]⟩
  | none =>
    cases hc : ctx.pairs.find? (fun p => p.1 = k) with
    | some p => exact ⟨p.2, by simp [hv, hc]⟩
    | none => rw [hc] at h; cases h

/-- The store after one executed request that returned (did not panic) is
either unchanged or extended by the successfully captured values of that
request's response. -/
theorem executeOne_store_cases (env : String → Option String)
    (build : ParsedRequest → Option String)
    (client : ParsedRequest → TransportOutcome)
    (p : ParsedRequest) (n : Nat) (ctx : VariableContext) :
    ∀ r ctx1, execute_one env build client p n ctx = some (r, ctx1) →
    ctx1 = ctx ∨
    ∃ resp vars, client (resolveRequest env ctx p) = .ok resp ∧
      capture_from_response resp.body resp.headers
        (resolveRequest env ctx p).metadata.captures = .ok vars ∧
      ctx1 = ctx.extend vars := by
  intro r ctx1 h
  cases hb : build (resolveRequest env ctx p) with
  | some e =>
    simp only [execute_one, hb, Option.some.injEq, Prod.mk.injEq] at h
    exact Or.inl h.2.symm
  | none =>
    cases hc : client (resolveRequest env ctx p) with
    | err e t =>
      simp only [execute_one, hb, hc, Option.some.injEq, Prod.mk.injEq] at h
      exact Or.inl h.2.symm
    | ok resp =>
      cases ha : assertionStep env
          (captureStep ctx (resolveRequest env ctx p).metadata.captures resp)
          (resolveRequest env ctx p).metadata.assertions resp with
      | none => simp [execute_one, hb, hc, ha] at h
      | some results =>
        simp only [execute_one, hb, hc, ha, Option.some.injEq,
          Prod.mk.injEq] at h
        by_cases hemp : (resolveRequest env ctx p).metadata.captures.isEmpty
        · exact Or.inl (h.2.symm.trans (by simp [captureStep, hemp]))
        · cases hcap : capture_from_response resp.body resp.headers
              (resolveRequest env ctx p).metadata.captures with
          | ok vars =>
            right
            exact ⟨resp, vars, rfl, hcap,
              h.2.symm.trans (by simp [captureStep, hemp, hcap])⟩
          | error e =>
            exact Or.inl (h.2.symm.trans (by simp [captureStep, hemp, hcap]))

/-- C7: a transport failure is local to its request — the step returns
(rather than aborting with) the error-kind record carrying the message and
the elapsed time with no assertion results and the store unchanged, the
batch continues with the remaining specs, and every completed batch has
one result per spec, in order. -/
theorem C7_transport_error_local (env : String → Option String)
    (build : ParsedRequest → Option String)
    (client : ParsedRequest → TransportOutcome) :
    (∀ (specs : List ParsedRequest) (i : Nat) (ctx : VariableContext) out,
      executeFrom env build client specs i ctx = some out →
      out.1.length = specs.length) ∧
    (∀ (p : ParsedRequest) (n : Nat) (ctx : VariableContext) (msg : String)
        (t : Nat),
      build (resolveRequest env ctx p) = none →
      client (resolveRequest env ctx p) = .err msg t →
      execute_one env build client p n ctx =
        some (TestResult.mkError n (resolveRequest env ctx p).metadata.name
          (resolveRequest env ctx p).methodOrDefault
          (resolveRequest env ctx p).url
          ("Request failed: " ++ msg) t, ctx) ∧
      (TestResult.mkError n (resolveRequest env ctx p).metadata.name
          (resolveRequest env ctx p).methodOrDefault
          (resolveRequest env ctx p).url
          ("Request failed: " ++ msg) t).assertions = [] ∧
      (TestResult.mkError n (resolveRequest env ctx p).metadata.name
          (resolveRequest env ctx p).methodOrDefault
          (resolveRequest env ctx p).url
          ("Request failed: " ++ msg) t).error =
        some ("Request failed: " ++ msg) ∧
      (TestResult.mkError n (resolveRequest env ctx p).metadata.name
          (resolveRequest env ctx p).methodOrDefault
          (resolveRequest env ctx p).url
          ("Request failed: " ++ msg) t).durationMs = t) ∧
    (∀ (p : ParsedRequest) (rest : List ParsedRequest) (i : Nat)
        (ctx : VariableContext) (msg : String) (t : Nat),
      p.shouldSkip = false →
      build (resolveRequest env ctx p) = none →
      client (resolveRequest env ctx p) = .err msg t →
      executeFrom env build client (p :: rest) i ctx =
        (executeFrom env build client rest (i + 1) ctx).map
          (fun rc => (TestResult.mkError (i + 1)
            (resolveRequest env ctx p).metadata.name
            (resolveRequest env ctx p).methodOrDefault
            (resolveRequest env ctx p).url
            ("Request failed: " ++ msg) t :: rc.1, rc.2))) := by
  refine ⟨?_, ?_, ?_⟩
  · intro specs
    induction specs with
    | nil =>
      intro i ctx out h
      cases h
      rfl
    | cons p rest ih =>
      intro i ctx out h
      rw [executeFrom] at h
      by_cases hs : p.shouldSkip
      · simp only [hs, if_pos] at h
        cases hrest : executeFrom env build client rest (i + 1) ctx with
        | none => rw [hrest] at h; cases h
        | some rc =>
          rw [hrest] at h
          simp only [Option.map_some', Option.some.injEq] at h
          cases h
          simp only [List.length_cons]
          rw [ih (i + 1) ctx rc hrest]
      · simp only [hs, Bool.false_eq_true, if_neg, not_false_iff] at h
        cases hone : execute_one env build client p (i + 1) ctx with
        | none => simp [hone] at h
        | some rc1 =>
          obtain ⟨r1, ctx1⟩ := rc1
          simp only [hone] at h
          cases hrest : executeFrom env build client rest (i + 1) ctx1 with
          | none => simp [hrest] at h
          | some rc =>
            rw [hrest] at h
            simp only [Option.map_some', Option.some.injEq] at h
            cases h
            simp only [List.length_cons]
            rw [ih (i + 1) ctx1 rc hrest]
  · intro p n ctx msg t hb hc
    refine ⟨?_, rfl, rfl, rfl⟩
    rw [execute_one, hb, hc]
  · intro p rest i ctx msg t hs hb hc
    have hone : execute_one env build client p (i + 1) ctx =
        some (TestResult.mkError (i + 1)
          (resolveRequest env ctx p).metadata.name
          (resolveRequest env ctx p).methodOrDefault
          (resolveRequest env ctx p).url
          ("Request failed: " ++ msg) t, ctx) := by
      rw [execute_one, hb, hc]
    rw [executeFrom]
    simp only [hs, Bool.false_eq_true, if_neg, not_false_iff, hone]

theorem C7_witness :
    executeFrom (fun _ => none) (fun _ => none)
        (fun _ => .err "connection refused" 42)
        [{ url := "http://x/a" }, { url := "http://x/b" }] 0
        VariableContext.empty =
      some ([TestResult.mkError 1 none "GET" "http://x/a"
              "Request failed: connection refused" 42,
             TestResult.mkError 2 none "GET" "http://x/b"
              "Request failed: connection refused" 42],
            VariableContext.empty) ∧
    ([TestResult.mkError 1 none "GET" "http://x/a"
        "Request failed: connection refused" 42,
      TestResult.mkError 2 none "GET" "http://x/b"
        "Request failed: connection refused" 42].length = 2) ∧
    execute_one (fun _ => none) (fun _ => none)
        (fun _ => .err "connection refused" 42)
        { url := "http://x/a" } 1 VariableContext.empty =
      some (TestResult.mkError 1 none "GET" "http://x/a"
        "Request failed: connection refused" 42, VariableContext.empty) :=
  ⟨by decide,
   (C7_transport_error_local (fun _ => none) (fun _ => none)
      (fun _ => .err "connection refused" 42)).1
     [{ url := "http://x/a" }, { url := "http://x/b" }] 0
     VariableContext.empty
     ([TestResult.mkError 1 none "GET" "http://x/a"
        "Request failed: connection refused" 42,
       TestResult.mkError 2 none "GET" "http://x/b"
        "Request failed: connection refused" 42],
      VariableContext.empty) (by decide),
   ((C7_transport_error_local (fun _ => none) (fun _ => none)
      (fun _ => .err "connection refused" 42)).2.1
     { url := "http://x/a" } 1 VariableContext.empty "connection refused" 42
     rfl rfl).1⟩

end Rupost

namespace Rupost

/-- C8: over a whole run that completes, keys are never deleted from the
variable store (anything present before is still present after, possibly
overwritten); a skipped spec yields the Skipped result immediately with
the store untouched; and a single executed request changes the store only
by merging a successful capture result. -/
theorem C8_store_never_deletes (env : String → Option String)
    (build : ParsedRequest → Option String)
    (client : ParsedRequest → TransportOutcome) :
    (∀ (specs : List ParsedRequest) (i : Nat) (ctx : VariableContext)
        (out : List TestResult × VariableContext) (k v : String),
      executeFrom env build client specs i ctx = some out →
      ctx.get k = some v → ∃ v2, out.2.get k = some v2) ∧
    (∀ (p : ParsedRequest) (rest : List ParsedRequest) (i : Nat)
        (ctx : VariableContext), p.shouldSkip = true →
      executeFrom env build client (p :: rest) i ctx =
        (executeFrom env build client rest (i + 1) ctx).map
          (fun rc => (TestResult.mkSkipped (i + 1) p.metadata.name
            p.methodOrDefault p.url :: rc.1, rc.2))) ∧
    (∀ (p : ParsedRequest) (n : Nat) (ctx : VariableContext)
        (r : TestResult) (ctx1 : VariableContext),
      execute_one env build client p n ctx = some (r, ctx1) →
      ctx1 = ctx ∨
      ∃ resp vars, client (resolveRequest env ctx p) = .ok resp ∧
        capture_from_response resp.body resp.headers
          (resolveRequest env ctx p).metadata.captures = .ok vars ∧
        ctx1 = ctx.extend vars) := by
  refine ⟨?_, ?_, executeOne_store_cases env build client⟩
  · intro specs
    induction specs with
    | nil =>
      intro i ctx out k v h hget
      cases h
      exact ⟨v, hget⟩
    | cons p rest ih =>
      intro i ctx out k v h hget
      rw [executeFrom] at h
      by_cases hs : p.shouldSkip
      · simp only [hs, if_pos] at h
        cases hrest : executeFrom env build client rest (i + 1) ctx with
        | none => rw [hrest] at h; cases h
        | some rc =>
          rw [hrest] at h
          simp only [Option.map_some', Option.some.injEq] at h
          cases h
          exact ih (i + 1) ctx rc k v hrest hget
      · simp only [hs, Bool.false_eq_true, if_neg, not_false_iff] at h
        cases hone : execute_one env build client p (i + 1) ctx with
        | none => simp [hone] at h
        | some rc1 =>
          obtain ⟨r1, ctx1⟩ := rc1
          simp only [hone] at h
          cases hrest : executeFrom env build client rest (i + 1) ctx1 with
          | none => simp [hrest] at h
          | some rc =>
            rw [hrest] at h
            simp only [Option.map_some', Option.some.injEq] at h
            cases h
            rcases executeOne_store_cases env build client p (i + 1) ctx
                r1 ctx1 hone with hcase | ⟨resp, vars, _, _, hcase⟩
            · rw [hcase] at hrest
              exact ih (i + 1) ctx rc k v hrest hget
            · rw [hcase] at hrest
              obtain ⟨v2, h2⟩ := get_extend_isSome ctx vars k v hget
              exact ih (i + 1) (ctx.extend vars) rc k v2 hrest h2
  · intro p rest i ctx hs
    rw [executeFrom]
    simp [hs]

theorem C8_witness :
    executeFrom (fun _ => none) (fun _ => none)
        (fun _ => .ok ⟨200, [], "\x7b\x7d", 3⟩)
        [{ url := "http://h/one" }] 0 ⟨[("base", "http://h")]⟩ =
      some ([{ requestNumber := 1, name := none, method := "GET",
               url := "http://h/one", status := some 200, durationMs := 3,
               success := true, error := none,
               response := some ⟨200, [], "\x7b\x7d", 3⟩, skipped := false,
               assertions := [] }], ⟨[("base", "http://h")]⟩) ∧
    (VariableContext.mk [("base", "http://h")]).get "base" =
      some "http://h" ∧
    ∃ v2, (VariableContext.mk [("base", "http://h")]).get "base" = some v2 :=
  ⟨by decide, rfl,
   (C8_store_never_deletes (fun _ => none) (fun _ => none)
      (fun _ => .ok ⟨200, [], "\x7b\x7d", 3⟩)).1
     [{ url := "http://h/one" }] 0 ⟨[("base", "http://h")]⟩
     ([{ requestNumber := 1, name := none, method := "GET",
         url := "http://h/one", status := some 200, durationMs := 3,
         success := true, error := none,
         response := some ⟨200, [], "\x7b\x7d", 3⟩, skipped := false,
         assertions := [] }], ⟨[("base", "http://h")]⟩)
     "base" "http://h" (by decide) rfl⟩

end Rupost

namespace Rupost

/-- If some capture in the list fails, the whole capture loop fails, no
matter what was accumulated before. -/
theorem captureLoop_err (bv : Option Json) (hs : List (String × String)) :
    ∀ (captures : List VariableCapture) (acc : List (String × String))
      (c : VariableCapture) (e : RupostError), c ∈ captures →
      captureOne bv hs c = .error e →
      ∃ e2, captureLoop bv hs captures acc = .error e2 := by
  intro captures
  induction captures with
  | nil => intro acc c e hmem; cases hmem
  | cons d rest ih =>
    intro acc c e hmem hfail
    rw [captureLoop]
    cases hd : captureOne bv hs d with
    | error e0 => exact ⟨e0, rfl⟩
    | ok v =>
      rcases List.mem_cons.mp hmem with rfl | hmem2
      · rw [hd] at hfail; cases hfail
      · exact ih ((d.name, v) :: acc) c e hmem2 hfail

/-- C10: capture is all-or-nothing — if evaluating any single capture of a
request fails, `capture_from_response` returns an error (discarding even
the captures that individually succeeded) and the executor's capture step
leaves the variable store unchanged. -/
theorem C10_capture_atomicity (body : String)
    (hs : List (String × String)) (captures : List VariableCapture)
    (c : VariableCapture) (e : RupostError) (hmem : c ∈ captures)
    (hfail : captureOne
      (if captures.any isBodyCapture then parseJson body else none)
      hs c = .error e) :
    (∃ e2, capture_from_response body hs captures = .error e2) ∧
    (∀ (ctx : VariableContext) (resp : Response), resp.body = body →
      resp.headers = hs → captureStep ctx captures resp = ctx) := by
  have hne : captures.isEmpty = false := by
    cases captures with
    | nil => cases hmem
    | cons d rest => rfl
  have herr : ∃ e2, capture_from_response body hs captures = .error e2 := by
    rw [capture_from_response]
    simp only [hne, Bool.false_eq_true, if_neg, not_false_iff]
    exact captureLoop_err _ hs captures [] c e hmem hfail
  refine ⟨herr, ?_⟩
  intro ctx resp hb hh
  obtain ⟨e2, he2⟩ := herr
  rw [captureStep, hb, hh, hne, he2]
  simp

theorem C10_witness :
    (⟨"good", .Body "token"⟩ : VariableCapture) ∈
      ([⟨"good", .Body "token"⟩, ⟨"bad", .Body "missing"⟩] :
        List VariableCapture) ∧
    captureOne (parseJson "\x7b\"token\":\"abc\"\x7d") []
        ⟨"bad", CaptureSource.Body "missing"⟩ =
      .error (.Other "Key missing not found in path missing") ∧
    ∃ e2, capture_from_response "\x7b\"token\":\"abc\"\x7d" []
        [⟨"good", .Body "token"⟩, ⟨"bad", .Body "missing"⟩] = .error e2 :=
  ⟨by decide, by decide,
    (C10_capture_atomicity "\x7b\"token\":\"abc\"\x7d" []
      [⟨"good", .Body "token"⟩, ⟨"bad", .Body "missing"⟩]
      ⟨"bad", .Body "missing"⟩ (.Other "Key missing not found in path missing")
      (by decide) (by decide)).1⟩

end Rupost

namespace Rupost

/-! ## Block counting (claim C2) -/

/-- A line the metadata-prefix loop consumes: blank, comment or metadata
(after trimming). -/
def skippable (l : String) : Bool :=
  (strTrim l = "" || is_comment (strTrim l)) || is_metadata (strTrim l)

/-- A block that contains a request line: some line survives the
metadata-prefix loop. -/
def hasSubstantive (b : String) : Bool :=
  (rustLines b).any (fun l => !skippable l)

theorem metaPhase_rest :
    ∀ (ls : List String) (n : Nat) (md md2 : RequestMetadata)
      (rest : List String) (n2 : Nat),
      metaPhase ls n md = .ok (md2, rest, n2) →
      rest.isEmpty = ls.all skippable := by
  intro ls
  induction ls with
  | nil =>
    intro n md md2 rest n2 h
    rw [metaPhase] at h
    cases h
    rfl
  | cons l ls1 ih =>
    intro n md md2 rest n2 h
    rw [metaPhase] at h
    split at h
    · rename_i hcond
      have hsk : skippable l = true := by
        rw [skippable, Bool.or_eq_true]
        exact Or.inl hcond
      rw [List.all_cons, hsk, Bool.true_and]
      exact ih (n + 1) md md2 rest n2 h
    · split at h
      · rename_i hcond hmeta
        split at h
        · rename_i md3 hml
          have hsk : skippable l = true := by
            rw [skippable, Bool.or_eq_true]
            exact Or.inr hmeta
          rw [List.all_cons, hsk, Bool.true_and]
          exact ih (n + 1) md3 md2 rest n2 h
        · cases h
      · rename_i hcond hmeta
        cases h
        have hsk : skippable l = false := by
          rw [skippable]
          simp only [Bool.or_eq_false_iff]
          constructor
          · simpa using hcond
          · simpa using hmeta
        rw [List.all_cons, hsk, Bool.false_and]
        rfl

theorem parse_request_block_isSome {b : String} {s : Nat}
    {r : Option ParsedRequest} (h : parse_request_block b s = .ok r) :
    r.isSome = hasSubstantive b := by
  rw [parse_request_block] at h
  split at h
  · rename_i hls
    cases h
    simp [hasSubstantive, hls]
  · rename_i hls
    split at h
    · cases h
    · rename_i heq
      cases h
      have hall := metaPhase_rest (rustLines b) s {} _ _ _ heq
      simp only [List.isEmpty_nil] at hall
      have hany : ((rustLines b).any fun l => !skippable l) = false := by
        rw [List.any_eq_false]
        intro l hl
        have := List.all_eq_true.mp hall.symm l hl
        simp [this]
      simp [hasSubstantive, hany]
    · rename_i md l rest n heq
      have hall := metaPhase_rest (rustLines b) s {} _ _ _ heq
      simp only [List.isEmpty_cons] at hall
      have hany : ((rustLines b).any fun l => !skippable l) = true := by
        have hfalse : (rustLines b).all skippable = false := hall.symm
        rw [List.any_eq_true]
        obtain ⟨x, hx, hnx⟩ := List.all_eq_false.mp hfalse
        exact ⟨x, hx, by simp [hnx]⟩
      split at h
      · cases h
      · rw [ite_eq_iff] at h
        rcases h with ⟨_, herr⟩ | ⟨_, hok⟩
        · cases herr
        · cases hok
          simp [hasSubstantive, hany]

theorem collectRequests_len :
    ∀ (blocks : List (String × Nat)) (reqs : List ParsedRequest),
      collectRequests blocks = .ok reqs →
      reqs.length =
        (blocks.filter (fun b => hasSubstantive b.1)).length := by
  intro blocks
  induction blocks with
  | nil => intro reqs h; cases h; rfl
  | cons b rest ih =>
    intro reqs h
    rw [collectRequests] at h
    split at h
    · cases h
    · rename_i heq
      have hsome := parse_request_block_isSome heq
      simp only [Option.isSome_none] at hsome
      rw [List.filter_cons, ← hsome]
      simp only [Bool.false_eq_true, if_neg, not_false_iff]
      exact ih reqs h
    · rename_i req heq
      have hsome := parse_request_block_isSome heq
      simp only [Option.isSome_some] at hsome
      split at h
      · cases h
      · rename_i reqs1 hcol
        cases h
        rw [List.filter_cons, ← hsome]
        simp only [if_pos, List.length_cons]
        rw [ih reqs1 hcol]

theorem trimChars_nil_iff (l : List Char) :
    trimChars l = [] ↔ ∀ c ∈ l, isWs c = true := by
  rw [trimChars, List.reverse_eq_nil_iff, List.dropWhile_eq_nil_iff]
  constructor
  · intro h c hc
    rw [← List.takeWhile_append_dropWhile isWs l] at hc
    rcases List.mem_append.mp hc with h1 | h2
    · exact List.mem_takeWhile_imp h1
    · exact h c (List.mem_reverse.mpr h2)
  · intro h c hc
    exact h c ((List.dropWhile_sublist isWs).subset (List.mem_reverse.mp hc))

theorem strTrim_empty_iff (s : String) :
    strTrim s = "" ↔ ∀ c ∈ s.data, isWs c = true := by
  rw [← trimChars_nil_iff]
  constructor
  · intro h
    exact congrArg String.data h
  · intro h
    rw [strTrim, h]

theorem hasPre_hash {l : List Char} (h : hasPre "###".data l = true) :
    hasPre ['#'] l = true := by
  have h3 : hasPre ['#', '#', '#'] l = true := h
  cases l with
  | nil => simp [hasPre] at h3
  | cons c cs =>
    rw [hasPre, Bool.and_eq_true] at h3 ⊢
    exact ⟨h3.1, rfl⟩

theorem sepLoop_prefix (ls : List String) : ∀ (blocks : List (String × Nat))
    (cur : String) (start line : Nat),
    blocks <+: (sepLoop ls blocks cur start line).1 := by
  induction ls with
  | nil =>
    intro blocks cur start line
    exact List.prefix_refl blocks
  | cons l rest ih =>
    intro blocks cur start line
    simp only [sepLoop]
    split
    · split
      · exact (List.prefix_append blocks _).trans
          (ih _ "" (line + 1) (line + 1))
      · exact ih blocks "" (line + 1) (line + 1)
    · exact ih blocks (cur ++ l ++ "\n") start (line + 1)

theorem sepLoop_all_ws (ls : List String) : ∀ (blocks : List (String × Nat))
    (cur : String) (start line : Nat),
    (sepLoop ls blocks cur start line).1 = blocks →
    strTrim (sepLoop ls blocks cur start line).2.1 = "" →
    (∀ l ∈ ls, strTrim l = "" ∨ is_comment (strTrim l) = true) ∧
      strTrim cur = "" := by
  induction ls with
  | nil =>
    intro blocks cur start line _ h2
    exact ⟨fun l hl => absurd hl (List.not_mem_nil l), h2⟩
  | cons l rest ih =>
    intro blocks cur start line h1 h2
    simp only [sepLoop] at h1 h2
    by_cases hsep : hasPre "###".data (trimChars l.data) = true
    · by_cases hcur : strTrim cur = ""
      · simp only [hsep, if_true, hcur, ne_eq, not_true_eq_false,
          if_false] at h1 h2
        have hrest := (ih blocks "" (line + 1) (line + 1) h1 h2).1
        have hcom : is_comment (strTrim l) = true := by
          have hp : hasPre ['#'] (strTrim l).data = true := hasPre_hash hsep
          simp [is_comment, hp]
        refine ⟨fun x hx => ?_, hcur⟩
        rcases List.mem_cons.mp hx with h | h
        · subst h
          exact Or.inr hcom
        · exact hrest x h
      · exfalso
        simp only [hsep, if_true, hcur, ne_eq, not_false_eq_true,
          if_true] at h1
        have hpre := sepLoop_prefix rest (blocks ++ [(cur, start)]) ""
          (line + 1) (line + 1)
        rw [h1] at hpre
        have := hpre.length_le
        simp at this
    · simp only [hsep, if_false] at h1 h2
      obtain ⟨hrest, hcat⟩ := ih blocks (cur ++ l ++ "\n") start (line + 1) h1 h2
      have hall := (strTrim_empty_iff _).mp hcat
      rw [String.data_append, String.data_append] at hall
      have hcur : strTrim cur = "" :=
        (strTrim_empty_iff cur).mpr (fun c hc => hall c (by simp [hc]))
      have hl : strTrim l = "" :=
        (strTrim_empty_iff l).mpr (fun c hc => hall c (by simp [hc]))
      refine ⟨fun x hx => ?_, hcur⟩
      rcases List.mem_cons.mp hx with h | h
      · subst h
        exact Or.inl hl
      · exact hrest x h

theorem sepLoop_entries (ls : List String) : ∀ (blocks : List (String × Nat))
    (cur : String) (start line : Nat),
    (∀ b ∈ blocks, ¬ strTrim b.1 = "") →
    ∀ b ∈ (sepLoop ls blocks cur start line).1, ¬ strTrim b.1 = "" := by
  induction ls with
  | nil =>
    intro blocks cur start line hb
    exact hb
  | cons l rest ih =>
    intro blocks cur start line hb
    simp only [sepLoop]
    split
    · split
      · rename_i hcur
        refine ih _ "" (line + 1) (line + 1) ?_
        intro b hbmem
        rcases List.mem_append.mp hbmem with h | h
        · exact hb b h
        · have hbe : b = (cur, start) := by simpa using h
          subst hbe
          simpa using hcur
      · exact ih blocks "" (line + 1) (line + 1) hb
    · exact ih blocks (cur ++ l ++ "\n") start (line + 1) hb

theorem preBlocks_entries (content : String) :
    ∀ b ∈ preBlocks content, ¬ strTrim b.1 = "" := by
  intro b hbm
  rw [preBlocks] at hbm
  by_cases hfin : strTrim (sepLoop (rustLines content) [] "" 1 1).2.1 = ""
  · simp only [hfin, ne_eq, not_true_eq_false, if_false] at hbm
    exact sepLoop_entries (rustLines content) [] "" 1 1
      (fun x hx => absurd hx (List.not_mem_nil x)) b hbm
  · simp only [hfin, ne_eq, not_false_eq_true, if_true] at hbm
    rcases List.mem_append.mp hbm with h | h
    · exact sepLoop_entries (rustLines content) [] "" 1 1
        (fun x hx => absurd hx (List.not_mem_nil x)) b h
    · have hbe : b = ((sepLoop (rustLines content) [] "" 1 1).2.1,
          (sepLoop (rustLines content) [] "" 1 1).2.2) := by simpa using h
      subst hbe
      simpa using hfin

theorem preBlocks_nil_lines (content : String) (h : preBlocks content = []) :
    ∀ l ∈ rustLines content, strTrim l = "" ∨ is_comment (strTrim l) = true := by
  rw [preBlocks] at h
  by_cases hfin : strTrim (sepLoop (rustLines content) [] "" 1 1).2.1 = ""
  · have h1 : (sepLoop (rustLines content) [] "" 1 1).1 = [] := by
      simpa [hfin] using h
    exact (sepLoop_all_ws (rustLines content) [] "" 1 1 h1 hfin).1
  · exfalso
    simp [hfin] at h

theorem metaPhase_blank (ls : List String) : ∀ (n : Nat) (md : RequestMetadata),
    (∀ l ∈ ls, strTrim l = "" ∨ is_comment (strTrim l) = true) →
    ∃ n2, metaPhase ls n md = .ok (md, [], n2) := by
  induction ls with
  | nil =>
    intro n md _
    exact ⟨n, rfl⟩
  | cons l rest ih =>
    intro n md h
    have hl := h l (List.mem_cons_self l rest)
    obtain ⟨n2, hres⟩ := ih (n + 1) md (fun x hx => h x (List.mem_cons_of_mem l hx))
    refine ⟨n2, ?_⟩
    rcases hl with h1 | h1 <;> simp only [metaPhase, h1] <;> simpa using hres

theorem parse_request_block_comments (b : String) (s : Nat)
    (h : ∀ l ∈ rustLines b, strTrim l = "" ∨ is_comment (strTrim l) = true) :
    parse_request_block b s = .ok none := by
  rw [parse_request_block]
  by_cases hls : rustLines b = []
  · simp [hls]
  · obtain ⟨n2, hmp⟩ := metaPhase_blank (rustLines b) s {} h
    simp [hls, hmp]

/-- C2 amended: for an accepted document, `requests.len()` equals the
number of `###`-delimited blocks that contain a substantive (non-blank,
non-comment, non-metadata) line — not the number of all non-empty blocks,
since a non-empty block consisting only of comments or metadata is
silently dropped; the blocks the splitter collects are exactly the
blocks that are non-empty after trimming, and when there are zero such
blocks parsing fails with `NoRequests` (the whole-content fallback block,
when taken, holds only separator and blank lines, which the metadata loop
consumes, so no request is produced). -/
theorem C2_block_count (content : String) :
    (∀ file, parse_content content = .ok file →
      file.requests.length =
        ((split_by_separator content).filter
          (fun b => hasSubstantive b.1)).length) ∧
    (∀ b ∈ preBlocks content, ¬ strTrim b.1 = "") ∧
    (preBlocks content = [] →
      parse_content content = .error .NoRequests) := by
  refine ⟨?_, preBlocks_entries content, ?_⟩
  · intro file h
    rw [parse_content] at h
    split at h
    · cases h
    · split at h
      · cases h
      · rename_i reqs hcol
        split at h
        · cases h
        · cases h
          exact collectRequests_len (split_by_separator content) reqs hcol
  · intro hpre
    by_cases hct : strTrim content = ""
    · have hsp : split_by_separator content = [] := by
        rw [split_by_separator, hpre]
        simp [hct]
      rw [parse_content, hsp]
      rfl
    · have hsp : split_by_separator content = [(content, 1)] := by
        rw [split_by_separator, hpre]
        simp [hct]
      have hblock := parse_request_block_comments content 1
        (preBlocks_nil_lines content hpre)
      rw [parse_content, hsp]
      simp [collectRequests, hblock]

end Rupost

namespace Rupost

/-- The document of the C2 counterexample: a request block followed by a
non-empty block holding only a comment. -/
def c2doc : String := "GET http://a\n###\n# only a comment"

/-- What the parser produces for `c2doc`. -/
def c2file : ParsedFile :=
  ⟨[{ method := some "GET", url := "http://a", lineNumber := 1 }]⟩

/-- C2 counterexample: `c2doc` is accepted with one request, but it has
two non-empty (after trimming) `###`-delimited blocks — the comment-only
block is dropped without an error, so the claimed count equality fails. -/
theorem C2_counterexample :
    parse_content c2doc = .ok c2file ∧
    c2file.requests.length = 1 ∧
    ((split_by_separator c2doc).filter
      (fun b => !(strTrim b.1 = ""))).length = 2 :=
  ⟨by decide, rfl, by decide⟩

theorem C2_witness :
    c2file.requests.length =
      ((split_by_separator c2doc).filter
        (fun b => hasSubstantive b.1)).length ∧
    ¬ strTrim "GET http://a\n" = "" ∧
    parse_content "###\n###" = .error .NoRequests :=
  ⟨(C2_block_count c2doc).1 c2file (by decide),
   (C2_block_count c2doc).2.1 ("GET http://a\n", 1) (by decide),
   (C2_block_count "###\n###").2.2 (by decide)⟩

/-! ## Capture chaining (claim C1) -/

/-- The C1 document: request A carries `@capture token from body.token`,
request B's template holds the `token` placeholder. -/
def capDoc : String :=
  "@capture token from body.token\nGET http://x/a\n###\nGET http://x/b?t=\x7b\x7btoken\x7d\x7d"

/-- What `parse_content` actually produces for `capDoc`: the `@capture`
directive has been silently dropped, so both capture lists are empty. -/
def capFile : ParsedFile := ⟨[
  { method := some "GET", url := "http://x/a", lineNumber := 1 },
  { method := some "GET", url := "http://x/b?t=\x7b\x7btoken\x7d\x7d",
    lineNumber := 4 }]⟩

/-- A transport model whose every response body is `{"token":"abc"}`. -/
def tokClient : ParsedRequest → TransportOutcome := fun _ =>
  .ok ⟨200, [], "\x7b\"token\":\"abc\"\x7d", 5⟩

/-- C1: demonstration of the defect.  Parsing `capDoc` drops the
`@capture` (and would drop any `@assert`) directive, so after sequential
execution against a transport whose response body is `\x7b"token":"abc"\x7d`
nothing is captured and request B's resolved URL still contains the verbatim
placeholder; with the capture stored on the spec, as the executor and the
spec expect, the same run resolves B's URL with the captured value. -/
theorem C1_capture_directive_dropped :
    parse_content capDoc = .ok capFile ∧
    capFile.requests.map (fun r => r.metadata.captures) = [[], []] ∧
    capFile.requests.map (fun r => r.metadata.assertions) = [[], []] ∧
    (execute_all (fun _ => none) (fun _ => none) tokClient capFile
        VariableContext.empty).map
      (fun out => (out.2.get "token", out.1.map (fun r => r.url))) =
      some (none, ["http://x/a", "http://x/b?t=\x7b\x7btoken\x7d\x7d"]) ∧
    (execute_all (fun _ => none) (fun _ => none) tokClient
        ⟨[{ url := "http://x/a",
            metadata := { captures := [⟨"token", CaptureSource.Body "token"⟩] } },
          { url := "http://x/b?t=\x7b\x7btoken\x7d\x7d" }]⟩
        VariableContext.empty).map (fun out => out.1.map (fun r => r.url)) =
      some ["http://x/a", "http://x/b?t=abc"] := by
  refine ⟨by decide, by decide, by decide, by decide, by decide⟩

end Rupost
